import Mathlib

/-!
# Sorbet LSP: preemption task manager and typechecker coordinator

A shallow embedding of `core/lsp/PreemptionTaskManager.cc` and
`main/lsp/LSPTypecheckerCoordinator.cc`.

* Shared pointers to tasks are `Option τ` (`none` is `nullptr`).
* A call that can end in a failed `ENFORCE` returns an `Outcome`.
* Every method is modelled as called from the thread its
  `assertConsistentThread` line names; thread identity is not part of the state.
* Results of calls into code outside the two files (`withEpochLock`,
  `wasTypecheckingCanceled`, `typecheck`) are inputs of the model.
* The coordinator is a machine with two threads, the message processing thread
  and the dedicated thread. An action is one stretch of code of one thread; the
  threads interleave between actions. A blocking call is two actions: the call
  up to its `WaitForNotification`, and its return, which is possible once the
  notification was raised. The slow path is three kinds of action: its start,
  its checkpoints, and the return of `typechecker.typecheck`. A checkpoint is
  two actions, one before and one after the store that empties the slot.
* The record of events and the counter of notifications are there to state the
  theorems; no code reads them, except that a wait reads whether its
  notification was raised.
-/

namespace Sorbet

/-! ## Preemption task manager -/

/-- Result of a call: it returns a value, or it ends in the fatal
invariant-violation outcome. -/
inductive Outcome (α : Type) where
  | returned (value : α)
  | fatal
  deriving DecidableEq, Repr

/-- Modelled from the spec: the `ENFORCE` macro is defined outside the two source
files. Sections 4.2 and 7 of the spec describe it as an assertion that is fatal
when its condition is violated and has no effect otherwise. -/
def ENFORCE (cond : Bool) : Outcome Unit :=
  if cond then Outcome.returned () else Outcome.fatal

/-- The fields of `TypecheckEpochManager::TypecheckingStatus` that the lambda
passed to `withEpochLock` reads. -/
structure TypecheckingStatus where
  slowPathRunning : Bool
  slowPathWasCanceled : Bool
  deriving DecidableEq, Repr

/-- The member `preemptTask` of `PreemptionTaskManager`: a shared pointer to the
scheduled task, `none` when no task is scheduled. -/
structure PreemptionTaskManager (τ : Type) where
  preemptTask : Option τ
  deriving DecidableEq, Repr

/-- The function `std::atomic_load` on a shared pointer. -/
def atomic_load {τ : Type} (p : Option τ) : Option τ := p

/-- The function `std::atomic_compare_exchange_strong` on a shared pointer: when
the pointer equals `expected` it is replaced by `desired` and the call returns
true, otherwise the pointer is left as it is and the call returns false. -/
def atomic_compare_exchange_strong {τ : Type} [DecidableEq τ]
    (p expected desired : Option τ) : Bool × Option τ :=
  if p = expected then (true, desired) else (false, p)

/-- The method `PreemptionTaskManager::trySchedulePreemptionTask`. The argument
`status` is the status that `withEpochLock` hands to the lambda. -/
def trySchedulePreemptionTask {τ : Type} [DecidableEq τ]
    (self : PreemptionTaskManager τ) (status : TypecheckingStatus) (task : τ) :
    Outcome Bool × PreemptionTaskManager τ :=
  let existingTask := atomic_load self.preemptTask
  match ENFORCE existingTask.isNone with
  | Outcome.fatal => (Outcome.fatal, self)
  | Outcome.returned _ =>
    if !status.slowPathRunning || status.slowPathWasCanceled || existingTask.isSome then
      (Outcome.returned false, self)
    else
      let r := atomic_compare_exchange_strong self.preemptTask existingTask (some task)
      (Outcome.returned r.1, { self with preemptTask := r.2 })

/-- The method `PreemptionTaskManager::tryRunScheduledPreemptionTask`. The world
`σ` is everything a task can change, `run` is `Task::run`, and `canceledBefore`
and `canceledAfter` are what the two calls of `wasTypecheckingCanceled` return. -/
def tryRunScheduledPreemptionTask {τ σ : Type} (run : τ → σ → σ)
    (canceledBefore canceledAfter : Bool)
    (self : PreemptionTaskManager τ) (world : σ) :
    Outcome Bool × PreemptionTaskManager τ × σ :=
  match atomic_load self.preemptTask with
  | some preemptTask =>
    match ENFORCE (!canceledBefore) with
    | Outcome.fatal => (Outcome.fatal, self, world)
    | Outcome.returned _ =>
      let world1 := run preemptTask world
      let self1 : PreemptionTaskManager τ := { self with preemptTask := none }
      match ENFORCE (!canceledAfter) with
      | Outcome.fatal => (Outcome.fatal, self1, world1)
      | Outcome.returned _ => (Outcome.returned true, self1, world1)
  | none => (Outcome.returned false, self, world)

/-- The method `tryRunScheduledPreemptionTask` up to the return of
`preemptTask->run()`: the task that was run, `none` when the slot is empty and
the method returns false. The slot is not written in this part. -/
def tryRunBegin {τ σ : Type} (run : τ → σ → σ) (canceledBefore : Bool)
    (self : PreemptionTaskManager τ) (world : σ) : Outcome (Option τ) × σ :=
  match atomic_load self.preemptTask with
  | some preemptTask =>
    match ENFORCE (!canceledBefore) with
    | Outcome.fatal => (Outcome.fatal, world)
    | Outcome.returned _ => (Outcome.returned (some preemptTask), run preemptTask world)
  | none => (Outcome.returned none, world)

/-- The method `tryRunScheduledPreemptionTask` after the return of
`preemptTask->run()`: the store of `nullptr`, the second `ENFORCE`, and the
return of true. -/
def tryRunEnd {τ : Type} (canceledAfter : Bool) (self : PreemptionTaskManager τ) :
    Outcome Bool × PreemptionTaskManager τ :=
  let self1 : PreemptionTaskManager τ := { self with preemptTask := none }
  match ENFORCE (!canceledAfter) with
  | Outcome.fatal => (Outcome.fatal, self1)
  | Outcome.returned _ => (Outcome.returned true, self1)

/-! ### Sequences of calls on one manager -/

/-- A call of one of the two methods, with the values it reads from outside. -/
inductive Call (τ : Type) where
  | schedule (status : TypecheckingStatus) (task : τ)
  | run (canceledBefore canceledAfter : Bool)
  deriving DecidableEq, Repr

/-- What a call did: a `schedule` entry carries the task offered and the result,
a `run` entry carries the tasks that were run during the call and the result. -/
inductive Entry (τ : Type) where
  | schedule (task : τ) (result : Outcome Bool)
  | run (ran : List τ) (result : Outcome Bool)
  deriving DecidableEq, Repr

/-- A manager together with the list of the tasks run so far, oldest first. -/
structure Sys (τ : Type) where
  manager : PreemptionTaskManager τ
  executed : List τ
  deriving DecidableEq, Repr

/-- Running a task, seen from the manager: the task is added to the list of
tasks run. -/
def recordRun {τ : Type} (t : τ) (executed : List τ) : List τ := executed ++ [t]

/-- One call on a system: the entry it leaves and the system afterwards. -/
def Sys.call {τ : Type} [DecidableEq τ] (s : Sys τ) : Call τ → Entry τ × Sys τ
  | Call.schedule status task =>
    let r := trySchedulePreemptionTask s.manager status task
    (Entry.schedule task r.1, { s with manager := r.2 })
  | Call.run cb ca =>
    let r := tryRunScheduledPreemptionTask recordRun cb ca s.manager s.executed
    (Entry.run (r.2.2.drop s.executed.length) r.1, { manager := r.2.1, executed := r.2.2 })

/-- The result recorded in an entry. -/
def Entry.result {τ : Type} : Entry τ → Outcome Bool
  | Entry.schedule _ r => r
  | Entry.run _ r => r

/-- A sequence of calls, made one after the other; a call that ends in the fatal
outcome is the last one made. Returns the entries left and the last system. -/
def Sys.calls {τ : Type} [DecidableEq τ] (s : Sys τ) : List (Call τ) → List (Entry τ) × Sys τ
  | [] => ([], s)
  | c :: cs =>
    let r := s.call c
    match r.1.result with
    | Outcome.fatal => ([r.1], r.2)
    | Outcome.returned _ =>
      let rest := r.2.calls cs
      (r.1 :: rest.1, rest.2)

/-- The tasks of the `schedule` entries that returned true, oldest first. -/
def accepted {τ : Type} : List (Entry τ) → List τ
  | [] => []
  | Entry.schedule t (Outcome.returned true) :: es => t :: accepted es
  | _ :: es => accepted es

/-- A system with an empty slot in which no task has run. -/
def Sys.init (τ : Type) : Sys τ := { manager := { preemptTask := none }, executed := [] }

/-! ## Typechecker coordinator -/

/-- The fields of `LSPFileUpdates` that `typecheckAsync` reads. -/
structure LSPFileUpdates where
  epoch : Nat
  editCount : Nat
  deriving DecidableEq, Repr

/-- The analysis state (`core::GlobalState`), known here only by its identity. -/
abbrev GlobalState := Nat

/-- The part of `LSPTypechecker` the coordinator reaches: the analysis state it
owns, `none` once it has been taken out. -/
structure LSPTypechecker where
  gs : Option GlobalState
  deriving DecidableEq, Repr

/-- Modelled from the spec: `LSPTypechecker::destroy` is defined outside the two
source files. Section 6 of the spec describes it as the operation that extracts
ownership of the analysis state: it returns the state and the typechecker no
longer holds it. -/
def LSPTypechecker.destroy (self : LSPTypechecker) : Option GlobalState × LSPTypechecker :=
  (self.gs, { gs := none })

/-- A lambda handed to `syncRun`: one supplied by a caller, known by its
identity (its body is outside these files), or the lambda written in `shutdown`. -/
inductive Lambda where
  | user (id : Nat)
  | shutdown
  deriving DecidableEq, Repr

/-- The closure built by `syncRunPreempt`, with what it captures: the lambda of
the caller, the notification and the value of `hasDedicatedThread`. -/
structure PreemptTask where
  lambda : Nat
  notification : Nat
  hasDedicatedThread : Bool
  deriving DecidableEq, Repr

/-- The three closures the coordinator wraps in a `Task`, with what they capture. -/
inductive Task where
  | typecheckAsync (updates : LSPFileUpdates) (notification : Nat)
  | syncRunPreempt (task : PreemptTask)
  | syncRun (lambda : Lambda) (notification : Nat) (hasDedicatedThread : Bool)
  deriving DecidableEq, Repr

/-- The notification captured by a task. -/
def Task.notification : Task → Nat
  | Task.typecheckAsync _ n => n
  | Task.syncRunPreempt p => p.notification
  | Task.syncRun _ n _ => n

/-- Where `Task::run` is called from: the loop of the dedicated thread, the
else-branch of `asyncRunInternal`, or `tryRunScheduledPreemptionTask`. -/
inductive Site where
  | loop
  | inline
  | checkpoint
  deriving DecidableEq, Repr

/-- What happened, in the order it happened. -/
inductive Event where
  | spawn
  | changeThread
  | push (t : Task)
  | run (site : Site) (t : Task)
  | startCommitEpoch (t : Task) (epoch : Nat)
  | typecheckBegin (t : Task)
  | typecheckEnd (t : Task) (result : Bool)
  | prodCounters (merged : Nat)
  | destroy
  | lambda (t : Task)
  | getAndClearThreadCounters
  | notify (n : Nat)
  | counterConsume
  | returned (t : Task)
  deriving DecidableEq, Repr

/-- Where the message processing thread is. -/
inductive Caller where
  | idle
  | inTypecheck (t : Task)
  | waiting (t : Task)
  deriving DecidableEq, Repr

/-- Where the dedicated thread is. -/
inductive Thread where
  | notStarted
  | starting
  | polling
  | slowPath (t : Task)
  | exited
  deriving DecidableEq, Repr

/-- The members of `LSPTypecheckerCoordinator` (`shouldTerminate`, `typechecker`,
`hasDedicatedThread`, `tasks`), the preemption task manager reached through
`tryPreempt`, the local variable `preemptTask` of a call of
`tryRunScheduledPreemptionTask` that has run its task and not yet emptied the
slot, the local variable `gs` of `shutdown`, the two threads, and the record of
what happened. -/
structure Machine where
  shouldTerminate : Bool
  typechecker : LSPTypechecker
  hasDedicatedThread : Bool
  tasks : List Task
  preemption : PreemptionTaskManager PreemptTask
  preemptLocal : Option PreemptTask
  gs : Option GlobalState
  shutdownResults : List (Option GlobalState)
  caller : Caller
  thread : Thread
  nextNotification : Nat
  trace : List Event
  deriving DecidableEq, Repr

/-- The coordinator right after its constructor, owning the analysis state `g`. -/
def Machine.init (g : GlobalState) : Machine :=
  { shouldTerminate := false, typechecker := { gs := some g }, hasDedicatedThread := false,
    tasks := [], preemption := { preemptTask := none }, preemptLocal := none,
    gs := none, shutdownResults := [],
    caller := Caller.idle, thread := Thread.notStarted, nextNotification := 0, trace := [] }

/-- Adds events to the record. -/
def Machine.emit (m : Machine) (es : List Event) : Machine :=
  { m with trace := m.trace ++ es }

/-- The body of a lambda run by the task `t`. -/
def Lambda.run (t : Task) : Lambda → Machine → Machine
  | Lambda.user _, m => m.emit [Event.lambda t]
  | Lambda.shutdown, m =>
    let r := m.typechecker.destroy
    { m with shouldTerminate := true, gs := r.1, typechecker := r.2,
             trace := m.trace ++ [Event.destroy, Event.lambda t] }

/-- The value of `u4 merged = updates->editCount - 1`. -/
def merged (updates : LSPFileUpdates) : Nat :=
  (updates.editCount + 2 ^ 32 - 1) % 2 ^ 32

/-- The method `Task::run` called at `site`. The closure of `typecheckAsync` is
run up to the point where `typechecker.typecheck` is entered; the two other
closures are run to their end. -/
def Task.run (site : Site) (t : Task) (m : Machine) : Machine :=
  match t with
  | Task.typecheckAsync updates notification =>
    m.emit [Event.run site t, Event.startCommitEpoch t updates.epoch,
            Event.notify notification, Event.typecheckBegin t]
  | Task.syncRunPreempt p =>
    let m1 := Lambda.run t (Lambda.user p.lambda) (m.emit [Event.run site t])
    let m2 := if p.hasDedicatedThread then m1.emit [Event.getAndClearThreadCounters] else m1
    m2.emit [Event.notify p.notification]
  | Task.syncRun lambda notification hasDedicatedThread =>
    let m1 := Lambda.run t lambda (m.emit [Event.run site t])
    let m2 := if hasDedicatedThread then m1.emit [Event.getAndClearThreadCounters] else m1
    m2.emit [Event.notify notification]

/-- The rest of the closure of `typecheckAsync`, once `typechecker.typecheck` has
returned `result`. -/
def Task.finish (t : Task) (result : Bool) (m : Machine) : Machine :=
  match t with
  | Task.typecheckAsync updates _ =>
    m.emit (Event.typecheckEnd t result ::
      (if !result then [Event.prodCounters 1, Event.prodCounters (merged updates)] else []))
  | _ => m

/-- Whether the task is the closure of `typecheckAsync`. -/
def Task.isSlowPath : Task → Bool
  | Task.typecheckAsync _ _ => true
  | _ => false

/-- Modelled from the spec: the class of the queue `tasks` is defined outside the
two source files. Section 3 of the spec describes the queue as an ordered,
unbounded, first-in first-out sequence of tasks: `push` adds a task at its tail. -/
def TaskQueue.push (tasks : List Task) (task : Task) : List Task :=
  tasks ++ [task]

/-- Modelled from the spec: the class of the queue `tasks` is defined outside the
two source files. Section 3 of the spec describes a blocking pop with a timeout
on a first-in first-out queue: `wait_pop_timed` hands over the task at the head
of the queue and removes it, or times out on an empty queue. -/
def TaskQueue.wait_pop_timed : List Task → Option Task × List Task
  | [] => (none, [])
  | task :: rest => (some task, rest)

/-- The method `LSPTypecheckerCoordinator::asyncRunInternal`. -/
def asyncRunInternal (m : Machine) (task : Task) : Machine :=
  if m.hasDedicatedThread then
    { m with tasks := TaskQueue.push m.tasks task, trace := m.trace ++ [Event.push task] }
  else
    task.run Site.inline m

/-- Modelled from the spec: `GlobalState::tryPreempt` is defined outside the two
source files. Section 4.4 of the spec describes it as the attempt to schedule the
task with the preemption scheduler; `status` is the status under the epoch lock. -/
def tryPreempt (m : Machine) (status : TypecheckingStatus) (task : PreemptTask) :
    Outcome Bool × PreemptionTaskManager PreemptTask :=
  trySchedulePreemptionTask m.preemption status task

/-- The method `typecheckAsync` up to its `WaitForNotification`. Without a
dedicated thread the caller is then inside `typechecker.typecheck`. -/
def typecheckAsync (m : Machine) (updates : LSPFileUpdates) : Machine :=
  let notification := m.nextNotification
  let task := Task.typecheckAsync updates notification
  let m1 := asyncRunInternal { m with nextNotification := notification + 1 } task
  { m1 with caller := if m.hasDedicatedThread then Caller.waiting task else Caller.inTypecheck task }

/-- The method `syncRun` up to its `WaitForNotification`. -/
def syncRun (m : Machine) (lambda : Lambda) : Machine :=
  let notification := m.nextNotification
  let task := Task.syncRun lambda notification m.hasDedicatedThread
  let m1 := asyncRunInternal { m with nextNotification := notification + 1 } task
  { m1 with caller := Caller.waiting task }

/-- The method `syncRunPreempt` up to its `WaitForNotification`; `none` when
`tryPreempt` ends in the fatal outcome. -/
def syncRunPreempt (m : Machine) (lambda : Nat) (status : TypecheckingStatus) : Option Machine :=
  let notification := m.nextNotification
  let p : PreemptTask :=
    { lambda := lambda, notification := notification, hasDedicatedThread := m.hasDedicatedThread }
  let m0 := { m with nextNotification := notification + 1 }
  match tryPreempt m0 status p with
  | (Outcome.fatal, _) => none
  | (Outcome.returned true, pm) =>
    some { m0 with preemption := pm, caller := Caller.waiting (Task.syncRunPreempt p) }
  | (Outcome.returned false, pm) =>
    let m1 := asyncRunInternal { m0 with preemption := pm } (Task.syncRunPreempt p)
    some { m1 with caller := Caller.waiting (Task.syncRunPreempt p) }

/-- The method `shutdown` up to the `WaitForNotification` of its `syncRun`. -/
def shutdown (m : Machine) : Machine :=
  syncRun { m with gs := none } Lambda.shutdown

/-- The end of a call that waits on the notification of `t`: `none` as long as
the notification was not raised. After the wait `syncRun` and `syncRunPreempt`
merge the counters when there is a dedicated thread, and `shutdown` returns its
local variable `gs`. -/
def waitAndReturn (m : Machine) (t : Task) : Option Machine :=
  if Event.notify t.notification ∈ m.trace then
    let m1 := if !t.isSlowPath && m.hasDedicatedThread then m.emit [Event.counterConsume] else m
    let m2 := match t with
      | Task.syncRun Lambda.shutdown _ _ => { m1 with shutdownResults := m1.shutdownResults ++ [m1.gs] }
      | _ => m1
    some { m2 with caller := Caller.idle, trace := m2.trace ++ [Event.returned t] }
  else none

/-- Modelled from the spec: `Exception::raise` is defined outside the two source
files. Sections 4.4 and 7 of the spec describe starting the dedicated thread
twice as a failure that is fatal. -/
def Exception.raise {α : Type} : Outcome α := Outcome.fatal

/-- The method `startTypecheckerThread`: the outcome and the coordinator
afterwards. The new thread has not run yet. -/
def startTypecheckerThread (m : Machine) : Outcome Unit × Machine :=
  if m.hasDedicatedThread then
    (Exception.raise, m)
  else
    (Outcome.returned (),
      { m with hasDedicatedThread := true, thread := Thread.starting,
               trace := m.trace ++ [Event.spawn] })

/-- One turn of the dedicated thread: its first turn calls `changeThread`, every
later turn is one pass of the `while` loop, in which `wait_pop_timed` hands over
the head of the queue or times out on an empty queue. `none` when the thread is
not at the head of its loop. -/
def threadLoop (m : Machine) : Option Machine :=
  match m.thread with
  | Thread.starting => some { m with thread := Thread.polling, trace := m.trace ++ [Event.changeThread] }
  | Thread.polling =>
    if m.shouldTerminate then some { m with thread := Thread.exited }
    else match TaskQueue.wait_pop_timed m.tasks with
      | (none, _) => some m
      | (some task, rest) =>
        let m1 := task.run Site.loop { m with tasks := rest }
        some { m1 with thread := if task.isSlowPath then Thread.slowPath task else Thread.polling }
  | _ => none

/-- The method `Task::run` of a task held in the preemption slot. -/
def PreemptTask.run (p : PreemptTask) (m : Machine) : Machine :=
  (Task.syncRunPreempt p).run Site.checkpoint m

/-- Whether a slow path is inside `typechecker.typecheck`, on the dedicated
thread or on the caller. -/
def Machine.inFlight (m : Machine) : Bool :=
  match m.thread, m.caller with
  | Thread.slowPath _, _ => true
  | _, Caller.inTypecheck _ => true
  | _, _ => false

/-- A checkpoint of the slow path in flight, which calls
`tryRunScheduledPreemptionTask`, up to the return of `preemptTask->run()`: with
an empty slot the call returns false; otherwise the task is run and the call
goes on in `checkpointEnd`. `none` when no slow path is in flight, a call is
already under way, or the first `ENFORCE` fails. -/
def checkpoint (m : Machine) (canceledBefore : Bool) : Option Machine :=
  if m.inFlight && m.preemptLocal.isNone then
    match tryRunBegin PreemptTask.run canceledBefore m.preemption m with
    | (Outcome.fatal, _) => none
    | (Outcome.returned none, m1) => some m1
    | (Outcome.returned (some preemptTask), m1) => some { m1 with preemptLocal := some preemptTask }
  else none

/-- The rest of a call of `tryRunScheduledPreemptionTask` that has run its task:
the slot is emptied and the call returns true. `none` when no such call is under
way or the second `ENFORCE` fails. -/
def checkpointEnd (m : Machine) (canceledAfter : Bool) : Option Machine :=
  match m.preemptLocal with
  | some _ =>
    match tryRunEnd canceledAfter m.preemption with
    | (Outcome.fatal, _) => none
    | (Outcome.returned _, pm) => some { m with preemption := pm, preemptLocal := none }
  | none => none

/-- The return of `typechecker.typecheck` with `result` on the thread that runs
the slow path; `none` when no slow path is in flight or the slow path is inside
`tryRunScheduledPreemptionTask`. -/
def typecheckReturn (m : Machine) (result : Bool) : Option Machine :=
  if m.preemptLocal.isSome then none
  else
    match m.thread with
    | Thread.slowPath t => some (t.finish result { m with thread := Thread.polling })
    | _ =>
      match m.caller with
      | Caller.inTypecheck t => some (t.finish result { m with caller := Caller.waiting t })
      | _ => none

/-- What the two threads can do next. -/
inductive Action where
  | startTypecheckerThread
  | typecheckAsync (updates : LSPFileUpdates)
  | syncRunPreempt (lambda : Nat) (status : TypecheckingStatus)
  | syncRun (lambda : Nat)
  | shutdown
  | callerReturn
  | threadLoop
  | checkpoint (canceledBefore : Bool)
  | checkpointEnd (canceledAfter : Bool)
  | typecheckReturn (result : Bool)
  deriving DecidableEq, Repr

/-- One action; `none` when the action cannot happen in this state or ends the
process. The message processing thread makes one call at a time. A task runs
without interruption from `Task::run` to its `Notify`; the two threads
interleave between actions. A second `startTypecheckerThread` raises and leaves
the machine as it is. -/
def step (m : Machine) : Action → Option Machine
  | Action.callerReturn =>
    match m.caller with
    | Caller.waiting t => waitAndReturn m t
    | _ => none
  | Action.threadLoop => threadLoop m
  | Action.checkpoint cb => checkpoint m cb
  | Action.checkpointEnd ca => checkpointEnd m ca
  | Action.typecheckReturn result => typecheckReturn m result
  | a =>
    match m.caller with
    | Caller.idle =>
      match a with
      | Action.startTypecheckerThread => some (startTypecheckerThread m).2
      | Action.typecheckAsync updates => some (typecheckAsync m updates)
      | Action.syncRunPreempt lambda status => syncRunPreempt m lambda status
      | Action.syncRun lambda => some (syncRun m (Lambda.user lambda))
      | Action.shutdown => some (shutdown m)
      | _ => none
    | _ => none

/-- A sequence of actions, one after the other. -/
def exec (m : Machine) : List Action → Option Machine
  | [] => some m
  | a :: rest => (step m a).bind (fun m1 => exec m1 rest)

/-- The tasks pushed onto the queue, oldest first. -/
def pushes : List Event → List Task
  | [] => []
  | Event.push t :: es => t :: pushes es
  | _ :: es => pushes es

/-- The tasks run by the loop of the dedicated thread, oldest first. -/
def loopRuns : List Event → List Task
  | [] => []
  | Event.run Site.loop t :: es => t :: loopRuns es
  | _ :: es => loopRuns es

/-- The tasks on which `Task::run` was called, from any site, oldest first. -/
def runs : List Event → List Task
  | [] => []
  | Event.run _ t :: es => t :: runs es
  | _ :: es => runs es

/-- Whether no `b` stands before the first `a` of the record: every `b` of the
record comes after an `a`. -/
def precedes (a b : Event) : List Event → Bool
  | [] => true
  | e :: es => if e = a then true else if e = b then false else precedes a b es

/-- The event a task leaves before it raises its notification: the start of the
commit epoch for the closure of `typecheckAsync`, the return of the lambda for
the two other closures. -/
def Task.mark (t : Task) : Event :=
  match t with
  | Task.typecheckAsync updates _ => Event.startCommitEpoch t updates.epoch
  | _ => Event.lambda t

/-- The events left by the body of a lambda run by the task `t`. -/
def Lambda.events (t : Task) : Lambda → List Event
  | Lambda.user _ => [Event.lambda t]
  | Lambda.shutdown => [Event.destroy, Event.lambda t]

/-- The events left by `Task.run`. -/
def Task.runEvents (site : Site) (t : Task) : List Event :=
  match t with
  | Task.typecheckAsync updates notification =>
    [Event.run site t, Event.startCommitEpoch t updates.epoch,
     Event.notify notification, Event.typecheckBegin t]
  | Task.syncRunPreempt p =>
    [Event.run site t, Event.lambda t] ++
      (if p.hasDedicatedThread then [Event.getAndClearThreadCounters] else []) ++
      [Event.notify p.notification]
  | Task.syncRun lambda notification hasDedicatedThread =>
    Event.run site t :: lambda.events t ++
      (if hasDedicatedThread then [Event.getAndClearThreadCounters] else []) ++
      [Event.notify notification]

/-- The events left by `Task.finish`. -/
def Task.finishEvents (t : Task) (result : Bool) : List Event :=
  match t with
  | Task.typecheckAsync updates _ =>
    Event.typecheckEnd t result ::
      (if !result then [Event.prodCounters 1, Event.prodCounters (merged updates)] else [])
  | _ => []

/-- One more than the notification an event refers to, `0` when it refers to none. -/
def Event.bound : Event → Nat
  | Event.push t => t.notification + 1
  | Event.run _ t => t.notification + 1
  | Event.startCommitEpoch t _ => t.notification + 1
  | Event.typecheckBegin t => t.notification + 1
  | Event.typecheckEnd t _ => t.notification + 1
  | Event.lambda t => t.notification + 1
  | Event.returned t => t.notification + 1
  | Event.notify n => n + 1
  | _ => 0

/-- A number above every notification the record refers to. -/
def bound : List Event → Nat
  | [] => 0
  | e :: es => max e.bound (bound es)

/-- The task in the preemption slot that waits to be run: none when the slot is
empty or holds a task that `tryRunScheduledPreemptionTask` has already run. -/
def Machine.slotPending (m : Machine) : List Task :=
  match m.preemptLocal with
  | some _ => []
  | none => m.preemption.preemptTask.toList.map Task.syncRunPreempt

/-- The tasks that wait to be run: the queue, then the task in the preemption slot. -/
def Machine.pending (m : Machine) : List Task :=
  m.tasks ++ m.slotPending

/-- A call of `tryRunScheduledPreemptionTask` that has run its task is made by a
slow path in flight, and the task it ran is still in the slot. -/
def Clearing (m : Machine) : Prop :=
  ∀ p, m.preemptLocal = some p →
    m.preemption.preemptTask = some p ∧ m.inFlight = true

/-- The task of the call the message processing thread is in. -/
def Caller.task : Caller → Option Task
  | Caller.idle => none
  | Caller.inTypecheck t => some t
  | Caller.waiting t => some t

/-- What holds of every machine a run can reach: the notifications in use are
below the next fresh one; at most one task waits to be run, it belongs to the
call the message processing thread waits in, and it has left no event yet; the
task of the call in progress has not returned and raises its notification only
after its mark; every call that returned did so after its notification, which
came after its mark; no mark occurs twice; and a closure of `typecheckAsync`
that was run on the caller has its caller inside `typecheck` until `typecheck`
has returned. -/
structure Inv (m : Machine) : Prop where
  fresh_trace : bound m.trace ≤ m.nextNotification
  fresh_caller : ∀ t, m.caller.task = some t → t.notification < m.nextNotification
  fresh_thread : ∀ t, m.thread = Thread.slowPath t → t.notification < m.nextNotification
  pending_length : m.pending.length ≤ 1
  pending_caller : ∀ t ∈ m.pending, m.caller = Caller.waiting t ∧
    Event.notify t.notification ∉ m.trace ∧ t.mark ∉ m.trace
  current : ∀ t, m.caller.task = some t → Event.returned t ∉ m.trace ∧
    precedes t.mark (Event.notify t.notification) m.trace = true ∧
    (Event.notify t.notification ∈ m.trace → t.mark ∈ m.trace)
  history : ∀ t, Event.returned t ∈ m.trace → t.mark ∈ m.trace ∧
    Event.notify t.notification ∈ m.trace ∧
    precedes t.mark (Event.notify t.notification) m.trace = true ∧
    precedes (Event.notify t.notification) (Event.returned t) m.trace = true
  mark_once : ∀ t : Task, m.trace.count t.mark ≤ 1
  inline : ∀ t : Task, t.isSlowPath = true → Event.run Site.inline t ∈ m.trace →
    m.caller = Caller.inTypecheck t ∨ ∃ r, Event.typecheckEnd t r ∈ m.trace
  inline_history : ∀ t : Task, t.isSlowPath = true → Event.returned t ∈ m.trace →
    Event.run Site.inline t ∈ m.trace →
    ∃ r, Event.typecheckEnd t r ∈ m.trace ∧
      precedes (Event.typecheckEnd t r) (Event.returned t) m.trace = true

/-- What holds of every machine a run from the constructor can reach: the
dedicated thread is not started exactly when `hasDedicatedThread` is false, one
thread was started exactly when it is true, and `Clearing` and `Inv` hold. -/
structure Wf (m : Machine) : Prop where
  started : m.thread = Thread.notStarted ↔ m.hasDedicatedThread = false
  spawned : m.trace.count Event.spawn = if m.hasDedicatedThread then 1 else 0
  clearing : Clearing m
  inv : Inv m

/-- A run with a dedicated thread: a slow path is started, a task is put in the
preemption slot while it runs, a checkpoint runs the task and its call returns. -/
def preemptScenario : List Action :=
  [Action.startTypecheckerThread, Action.threadLoop,
   Action.typecheckAsync (LSPFileUpdates.mk 1 3), Action.threadLoop, Action.callerReturn,
   Action.syncRunPreempt 5 (TypecheckingStatus.mk true false),
   Action.checkpoint false, Action.callerReturn, Action.checkpointEnd false]

/-- The machine at the end of `preemptScenario`. -/
def preemptScenarioEnd : Machine :=
  { shouldTerminate := false, typechecker := { gs := some 7 }, hasDedicatedThread := true,
    tasks := [], preemption := { preemptTask := none }, preemptLocal := none,
    gs := none, shutdownResults := [],
    caller := Caller.idle,
    thread := Thread.slowPath (Task.typecheckAsync (LSPFileUpdates.mk 1 3) 0),
    nextNotification := 2,
    trace :=
      [Event.spawn, Event.changeThread,
       Event.push (Task.typecheckAsync (LSPFileUpdates.mk 1 3) 0),
       Event.run Site.loop (Task.typecheckAsync (LSPFileUpdates.mk 1 3) 0),
       Event.startCommitEpoch (Task.typecheckAsync (LSPFileUpdates.mk 1 3) 0) 1,
       Event.notify 0,
       Event.typecheckBegin (Task.typecheckAsync (LSPFileUpdates.mk 1 3) 0),
       Event.returned (Task.typecheckAsync (LSPFileUpdates.mk 1 3) 0),
       Event.run Site.checkpoint (Task.syncRunPreempt (PreemptTask.mk 5 1 true)),
       Event.lambda (Task.syncRunPreempt (PreemptTask.mk 5 1 true)),
       Event.getAndClearThreadCounters, Event.notify 1, Event.counterConsume,
       Event.returned (Task.syncRunPreempt (PreemptTask.mk 5 1 true))] }

/-- The machine right after `typecheckAsync` was called on a fresh coordinator
without a dedicated thread: the caller has started the commit epoch and raised
the notification, and is inside `typechecker.typecheck`. -/
def inlineSlowPath : Machine :=
  { shouldTerminate := false, typechecker := { gs := some 0 }, hasDedicatedThread := false,
    tasks := [], preemption := { preemptTask := none }, preemptLocal := none,
    gs := none, shutdownResults := [],
    caller := Caller.inTypecheck (Task.typecheckAsync (LSPFileUpdates.mk 1 1) 0),
    thread := Thread.notStarted,
    nextNotification := 1,
    trace :=
      [Event.run Site.inline (Task.typecheckAsync (LSPFileUpdates.mk 1 1) 0),
       Event.startCommitEpoch (Task.typecheckAsync (LSPFileUpdates.mk 1 1) 0) 1,
       Event.notify 0,
       Event.typecheckBegin (Task.typecheckAsync (LSPFileUpdates.mk 1 1) 0)] }

/-- A run with a dedicated thread in which `typecheckAsync` returns while the
slow path is still inside `typechecker.typecheck`. -/
def slowPathScenario (updates : LSPFileUpdates) : List Action :=
  [Action.startTypecheckerThread, Action.threadLoop, Action.typecheckAsync updates,
   Action.threadLoop, Action.callerReturn]

/-- The machine at the end of `slowPathScenario`. -/
def slowPathScenarioEnd (g : GlobalState) (updates : LSPFileUpdates) : Machine :=
  { shouldTerminate := false, typechecker := { gs := some g }, hasDedicatedThread := true,
    tasks := [], preemption := { preemptTask := none }, preemptLocal := none,
    gs := none, shutdownResults := [],
    caller := Caller.idle,
    thread := Thread.slowPath (Task.typecheckAsync updates 0),
    nextNotification := 1,
    trace :=
      [Event.spawn, Event.changeThread,
       Event.push (Task.typecheckAsync updates 0),
       Event.run Site.loop (Task.typecheckAsync updates 0),
       Event.startCommitEpoch (Task.typecheckAsync updates 0) updates.epoch,
       Event.notify 0,
       Event.typecheckBegin (Task.typecheckAsync updates 0),
       Event.returned (Task.typecheckAsync updates 0)] }

/-- The tasks pushed onto the queue are, in order, the tasks the loop of the
dedicated thread has run followed by the tasks still in the queue. -/
def Fifo (m : Machine) : Prop :=
  pushes m.trace = loopRuns m.trace ++ m.tasks

/-- A coordinator with a dedicated thread at the head of its loop and two tasks
in the queue, pushed in the order of the queue. -/
def twoQueued : Machine :=
  { shouldTerminate := false, typechecker := { gs := some 0 }, hasDedicatedThread := true,
    tasks := [Task.syncRun (Lambda.user 1) 0 true, Task.syncRun (Lambda.user 2) 1 true],
    preemption := { preemptTask := none }, preemptLocal := none,
    gs := none, shutdownResults := [],
    caller := Caller.idle, thread := Thread.polling, nextNotification := 2,
    trace := [Event.push (Task.syncRun (Lambda.user 1) 0 true),
              Event.push (Task.syncRun (Lambda.user 2) 1 true)] }

/-- The machine `twoQueued` after two turns of the loop of the dedicated thread. -/
def twoQueuedEnd : Machine :=
  { shouldTerminate := false, typechecker := { gs := some 0 }, hasDedicatedThread := true,
    tasks := [],
    preemption := { preemptTask := none }, preemptLocal := none,
    gs := none, shutdownResults := [],
    caller := Caller.idle, thread := Thread.polling, nextNotification := 2,
    trace := [Event.push (Task.syncRun (Lambda.user 1) 0 true),
              Event.push (Task.syncRun (Lambda.user 2) 1 true),
              Event.run Site.loop (Task.syncRun (Lambda.user 1) 0 true),
              Event.lambda (Task.syncRun (Lambda.user 1) 0 true),
              Event.getAndClearThreadCounters, Event.notify 0,
              Event.run Site.loop (Task.syncRun (Lambda.user 2) 1 true),
              Event.lambda (Task.syncRun (Lambda.user 2) 1 true),
              Event.getAndClearThreadCounters, Event.notify 1] }

/-- The machine after `startTypecheckerThread` was called twice on a fresh
coordinator and the new thread took its first turn. -/
def startedTwice : Machine :=
  { shouldTerminate := false, typechecker := { gs := some 7 }, hasDedicatedThread := true,
    tasks := [], preemption := { preemptTask := none }, preemptLocal := none,
    gs := none, shutdownResults := [],
    caller := Caller.idle, thread := Thread.polling, nextNotification := 0,
    trace := [Event.spawn, Event.changeThread] }

/-- The dedicated thread exists, `shouldTerminate` is set, the thread is at the
head of its loop or has left it, the caller is not inside `typecheck`, and no
call of `tryRunScheduledPreemptionTask` is under way. -/
def Stopped (m : Machine) : Prop :=
  m.shouldTerminate = true ∧ m.hasDedicatedThread = true ∧
  (m.thread = Thread.polling ∨ m.thread = Thread.exited) ∧
  (∀ t, m.caller ≠ Caller.inTypecheck t) ∧ m.preemptLocal = none

/-- A run in which `shutdown` is called on a coordinator with a dedicated thread. -/
def shutdownScenario : List Action :=
  [Action.startTypecheckerThread, Action.threadLoop, Action.shutdown]

/-- A coordinator with a dedicated thread at the head of its loop whose queue
holds the task of `shutdown` and, behind it, one more task. -/
def shutdownQueued : Machine :=
  { shouldTerminate := false, typechecker := { gs := some 7 }, hasDedicatedThread := true,
    tasks := [Task.syncRun Lambda.shutdown 0 true, Task.syncRun (Lambda.user 3) 1 true],
    preemption := { preemptTask := none }, preemptLocal := none,
    gs := none, shutdownResults := [],
    caller := Caller.waiting (Task.syncRun Lambda.shutdown 0 true),
    thread := Thread.polling, nextNotification := 2,
    trace := [Event.spawn, Event.changeThread,
              Event.push (Task.syncRun Lambda.shutdown 0 true),
              Event.push (Task.syncRun (Lambda.user 3) 1 true)] }

/-! ### Theorems on the preemption task manager -/

theorem trySchedule_occupied {τ : Type} [DecidableEq τ] (t0 t : τ) (status : TypecheckingStatus) :
    trySchedulePreemptionTask { preemptTask := some t0 } status t
      = (Outcome.fatal, { preemptTask := some t0 }) := by
  simp [trySchedulePreemptionTask, atomic_load, ENFORCE]

theorem trySchedule_empty {τ : Type} [DecidableEq τ] (t : τ) (status : TypecheckingStatus) :
    trySchedulePreemptionTask { preemptTask := none } status t
      = if status.slowPathRunning = true ∧ status.slowPathWasCanceled = false
        then (Outcome.returned true, { preemptTask := some t })
        else (Outcome.returned false, { preemptTask := none }) := by
  rcases status with ⟨r, c⟩
  cases r <;> cases c <;>
    simp [trySchedulePreemptionTask, atomic_load, ENFORCE, atomic_compare_exchange_strong]

theorem tryRun_empty {τ σ : Type} (run : τ → σ → σ) (cb ca : Bool) (w : σ) :
    tryRunScheduledPreemptionTask run cb ca { preemptTask := none } w
      = (Outcome.returned false, { preemptTask := none }, w) := by
  simp [tryRunScheduledPreemptionTask, atomic_load]

theorem tryRun_occupied {τ σ : Type} (run : τ → σ → σ) (cb ca : Bool) (t : τ) (w : σ) :
    tryRunScheduledPreemptionTask run cb ca { preemptTask := some t } w
      = if cb = true then (Outcome.fatal, { preemptTask := some t }, w)
        else if ca = true then (Outcome.fatal, { preemptTask := none }, run t w)
        else (Outcome.returned true, { preemptTask := none }, run t w) := by
  cases cb <;> cases ca <;> simp [tryRunScheduledPreemptionTask, atomic_load, ENFORCE]

theorem tryRunBegin_empty {τ σ : Type} (run : τ → σ → σ) (cb : Bool) (w : σ) :
    tryRunBegin run cb { preemptTask := none } w = (Outcome.returned none, w) := by
  simp [tryRunBegin, atomic_load]

theorem tryRunBegin_occupied {τ σ : Type} (run : τ → σ → σ) (cb : Bool) (t : τ) (w : σ) :
    tryRunBegin run cb { preemptTask := some t } w
      = if cb = true then (Outcome.fatal, w) else (Outcome.returned (some t), run t w) := by
  cases cb <;> simp [tryRunBegin, atomic_load, ENFORCE]

theorem tryRunEnd_eq {τ : Type} (ca : Bool) (self : PreemptionTaskManager τ) :
    tryRunEnd ca self
      = if ca = true then (Outcome.fatal, { preemptTask := none })
        else (Outcome.returned true, { preemptTask := none }) := by
  cases ca <;> simp [tryRunEnd, ENFORCE]

/-- The two parts `tryRunBegin` and `tryRunEnd`, one after the other, are the
method `tryRunScheduledPreemptionTask`. -/
theorem tryRun_split {τ σ : Type} (run : τ → σ → σ) (cb ca : Bool)
    (self : PreemptionTaskManager τ) (w : σ) :
    tryRunScheduledPreemptionTask run cb ca self w
      = match tryRunBegin run cb self w with
        | (Outcome.fatal, w1) => (Outcome.fatal, self, w1)
        | (Outcome.returned none, w1) => (Outcome.returned false, self, w1)
        | (Outcome.returned (some _), w1) => ((tryRunEnd ca self).1, (tryRunEnd ca self).2, w1) := by
  rcases self with ⟨slot⟩
  cases slot with
  | none => simp [tryRun_empty, tryRunBegin_empty]
  | some t =>
    cases cb <;> cases ca <;> simp [tryRun_occupied, tryRunBegin_occupied, tryRunEnd_eq]

/-- C1, counterexample: with the slow path canceled and the slot occupied the
call does not return false, it ends in the fatal outcome. -/
theorem trySchedule_canceled_occupied_fatal :
    (TypecheckingStatus.mk true true).slowPathWasCanceled = true ∧
    (trySchedulePreemptionTask (PreemptionTaskManager.mk (some 0)) (TypecheckingStatus.mk true true) 1).1
      ≠ Outcome.returned false ∧
    trySchedulePreemptionTask (PreemptionTaskManager.mk (some 0)) (TypecheckingStatus.mk true true) 1
      = (Outcome.fatal, PreemptionTaskManager.mk (some 0)) := by
  decide

/-- C1, amended: `trySchedulePreemptionTask` returns true exactly when a slow
path is running, it was not canceled and the slot is empty; when it returns true
the slot afterwards holds the task, when it returns false the slot is unchanged.
When the slow path was canceled no call returns true, and every call on an empty
slot returns false. -/
theorem trySchedulePreemptionTask_spec {τ : Type} [DecidableEq τ]
    (self : PreemptionTaskManager τ) (status : TypecheckingStatus) (t : τ) :
    ((trySchedulePreemptionTask self status t).1 = Outcome.returned true ↔
      (status.slowPathRunning = true ∧ status.slowPathWasCanceled = false ∧
        self.preemptTask = none)) ∧
    ((trySchedulePreemptionTask self status t).1 = Outcome.returned true →
      (trySchedulePreemptionTask self status t).2.preemptTask = some t) ∧
    ((trySchedulePreemptionTask self status t).1 = Outcome.returned false →
      (trySchedulePreemptionTask self status t).2 = self) ∧
    (status.slowPathWasCanceled = true →
      (trySchedulePreemptionTask self status t).1 ≠ Outcome.returned true ∧
      (self.preemptTask = none →
        (trySchedulePreemptionTask self status t).1 = Outcome.returned false)) := by
  rcases self with ⟨slot⟩
  rcases status with ⟨r, c⟩
  cases slot with
  | some t0 => simp [trySchedule_occupied]
  | none => cases r <;> cases c <;> simp [trySchedule_empty]

/-- C3: `tryRunScheduledPreemptionTask` returns false exactly when the slot is
empty, and then changes neither the world nor the slot; with a task `t` in the
slot and no cancellation seen by either check it applies `run t` once to the
world, empties the slot and returns true, and the call that follows returns
false and leaves the world as it is. -/
theorem tryRunScheduledPreemptionTask_spec {τ σ : Type} (run : τ → σ → σ)
    (self : PreemptionTaskManager τ) (w : σ) (t : τ) (cb ca : Bool) :
    ((tryRunScheduledPreemptionTask run cb ca self w).1 = Outcome.returned false ↔
      self.preemptTask = none) ∧
    (self.preemptTask = none →
      tryRunScheduledPreemptionTask run cb ca self w = (Outcome.returned false, self, w)) ∧
    (tryRunScheduledPreemptionTask run false false { preemptTask := some t } w
      = (Outcome.returned true, { preemptTask := none }, run t w)) ∧
    (tryRunScheduledPreemptionTask run cb ca
        (tryRunScheduledPreemptionTask run false false { preemptTask := some t } w).2.1
        (tryRunScheduledPreemptionTask run false false { preemptTask := some t } w).2.2
      = (Outcome.returned false, { preemptTask := none }, run t w)) := by
  rcases self with ⟨slot⟩
  refine ⟨?_, ?_, ?_, ?_⟩
  · cases slot with
    | none => simp [tryRun_empty]
    | some t0 => cases cb <;> cases ca <;> simp [tryRun_occupied]
  · intro h
    simp only at h
    subst h
    exact tryRun_empty run cb ca w
  · simp [tryRun_occupied]
  · simp [tryRun_occupied, tryRun_empty]

/-- C4: with a task already in the slot, `trySchedulePreemptionTask` ends in the
fatal outcome whatever the status and the task offered, and the pending task
stays in the slot. -/
theorem trySchedulePreemptionTask_double_fatal {τ : Type} [DecidableEq τ]
    (pending t : τ) (status : TypecheckingStatus) :
    (trySchedulePreemptionTask { preemptTask := some pending } status t).1 = Outcome.fatal ∧
    (trySchedulePreemptionTask { preemptTask := some pending } status t).2.preemptTask
      = some pending := by
  simp [trySchedule_occupied]

/-- C5: with a task `t` in the slot and typechecking already canceled the call
ends in the fatal outcome, the world and the slot untouched; when only the
second check sees the cancellation the call ends in the fatal outcome as well,
after `t` ran and the slot was emptied; with an empty slot the call returns
false whatever the two checks would have seen. -/
theorem tryRunScheduledPreemptionTask_canceled {τ σ : Type} (run : τ → σ → σ)
    (t : τ) (w : σ) (cb ca : Bool) :
    (tryRunScheduledPreemptionTask run true ca { preemptTask := some t } w
      = (Outcome.fatal, { preemptTask := some t }, w)) ∧
    (tryRunScheduledPreemptionTask run false true { preemptTask := some t } w
      = (Outcome.fatal, { preemptTask := none }, run t w)) ∧
    (tryRunScheduledPreemptionTask run cb ca { preemptTask := none } w
      = (Outcome.returned false, { preemptTask := none }, w)) := by
  refine ⟨?_, ?_, ?_⟩
  · simp [tryRun_occupied]
  · simp [tryRun_occupied]
  · exact tryRun_empty run cb ca w

/-! ### Sequences of calls -/

theorem call_schedule_occupied {τ : Type} [DecidableEq τ] (s : Sys τ) (t0 t : τ)
    (status : TypecheckingStatus) (h : s.manager.preemptTask = some t0) :
    s.call (Call.schedule status t) = (Entry.schedule t Outcome.fatal, s) := by
  rcases s with ⟨⟨slot⟩, ex⟩
  simp only at h
  subst h
  simp [Sys.call, trySchedule_occupied]

theorem call_schedule_empty {τ : Type} [DecidableEq τ] (s : Sys τ) (t : τ)
    (status : TypecheckingStatus) (h : s.manager.preemptTask = none) :
    s.call (Call.schedule status t)
      = if status.slowPathRunning = true ∧ status.slowPathWasCanceled = false
        then (Entry.schedule t (Outcome.returned true),
              { manager := { preemptTask := some t }, executed := s.executed })
        else (Entry.schedule t (Outcome.returned false), s) := by
  rcases s with ⟨⟨slot⟩, ex⟩
  simp only at h
  subst h
  simp only [Sys.call, trySchedule_empty]
  split <;> rfl

theorem call_run_empty {τ : Type} [DecidableEq τ] (s : Sys τ) (cb ca : Bool)
    (h : s.manager.preemptTask = none) :
    s.call (Call.run cb ca) = (Entry.run [] (Outcome.returned false), s) := by
  rcases s with ⟨⟨slot⟩, ex⟩
  simp only at h
  subst h
  simp [Sys.call, tryRun_empty]

theorem call_run_occupied {τ : Type} [DecidableEq τ] (s : Sys τ) (cb ca : Bool) (t : τ)
    (h : s.manager.preemptTask = some t) :
    s.call (Call.run cb ca)
      = if cb = true then (Entry.run [] Outcome.fatal, s)
        else if ca = true then
          (Entry.run [t] Outcome.fatal,
            { manager := { preemptTask := none }, executed := s.executed ++ [t] })
        else
          (Entry.run [t] (Outcome.returned true),
            { manager := { preemptTask := none }, executed := s.executed ++ [t] }) := by
  rcases s with ⟨⟨slot⟩, ex⟩
  simp only at h
  subst h
  cases cb <;> cases ca <;> simp [Sys.call, tryRun_occupied, recordRun]

theorem calls_cons {τ : Type} [DecidableEq τ] (s : Sys τ) (c : Call τ) (cs : List (Call τ)) :
    s.calls (c :: cs)
      = if (s.call c).1.result = Outcome.fatal then ([(s.call c).1], (s.call c).2)
        else ((s.call c).1 :: ((s.call c).2.calls cs).1, ((s.call c).2.calls cs).2) := by
  cases h : (s.call c).1.result <;> simp [Sys.calls, h]

/-- What one call does to the tasks accepted, run and pending. -/
theorem call_balance {τ : Type} [DecidableEq τ] (s : Sys τ) (c : Call τ) :
    s.executed ++ s.manager.preemptTask.toList ++ accepted [(s.call c).1]
      = (s.call c).2.executed ++ (s.call c).2.manager.preemptTask.toList := by
  cases hslot : s.manager.preemptTask with
  | none =>
    cases c with
    | schedule status t =>
      rw [call_schedule_empty s t status hslot]
      split <;> simp [accepted, hslot]
    | run cb ca => simp [call_run_empty s cb ca hslot, accepted, hslot]
  | some t0 =>
    cases c with
    | schedule status t => simp [call_schedule_occupied s t0 t status hslot, accepted, hslot]
    | run cb ca =>
      rw [call_run_occupied s cb ca t0 hslot]
      cases cb <;> cases ca <;> simp [accepted, hslot]

theorem accepted_cons {τ : Type} (e : Entry τ) (es : List (Entry τ)) :
    accepted (e :: es) = accepted [e] ++ accepted es := by
  rcases e with ⟨t, (⟨(_ | _)⟩ | _)⟩ | ⟨ran, r⟩ <;> simp [accepted]

theorem calls_balance {τ : Type} [DecidableEq τ] (cs : List (Call τ)) :
    ∀ s : Sys τ,
      s.executed ++ s.manager.preemptTask.toList ++ accepted (s.calls cs).1
        = (s.calls cs).2.executed ++ (s.calls cs).2.manager.preemptTask.toList := by
  induction cs with
  | nil => intro s; simp [Sys.calls, accepted]
  | cons c cs ih =>
    intro s
    rw [calls_cons]
    split
    · exact call_balance s c
    · rw [accepted_cons, ← List.append_assoc, call_balance s c]
      exact ih (s.call c).2

/-- With a task pending, a later call that returns true from
`trySchedulePreemptionTask` comes after a call that ran the pending task. -/
theorem calls_run_before_schedule {τ : Type} [DecidableEq τ] (cs : List (Call τ)) :
    ∀ (s : Sys τ) (t1 : τ), s.manager.preemptTask = some t1 →
      ∀ (mid : List (Entry τ)) (t2 : τ) (post : List (Entry τ)),
        (s.calls cs).1 = mid ++ Entry.schedule t2 (Outcome.returned true) :: post →
        Entry.run [t1] (Outcome.returned true) ∈ mid := by
  induction cs with
  | nil =>
    intro s t1 _ mid t2 post h
    simp [Sys.calls] at h
  | cons c cs ih =>
    intro s t1 hslot mid t2 post h
    rw [calls_cons] at h
    cases c with
    | schedule status t =>
      rw [call_schedule_occupied s t1 t status hslot] at h
      simp [Entry.result, List.cons_eq_append_iff] at h
    | run cb ca =>
      rw [call_run_occupied s cb ca t1 hslot] at h
      cases cb <;> cases ca <;> simp [Entry.result, List.cons_eq_append_iff] at h
      obtain ⟨mid1, hmid, _⟩ := h
      simp [hmid]

theorem calls_between {τ : Type} [DecidableEq τ] (cs : List (Call τ)) :
    ∀ (s : Sys τ) (pre : List (Entry τ)) (t1 : τ) (mid : List (Entry τ)) (t2 : τ)
      (post : List (Entry τ)),
      (s.calls cs).1 = pre ++ Entry.schedule t1 (Outcome.returned true) ::
        (mid ++ Entry.schedule t2 (Outcome.returned true) :: post) →
      Entry.run [t1] (Outcome.returned true) ∈ mid := by
  induction cs with
  | nil =>
    intro s pre t1 mid t2 post h
    simp [Sys.calls] at h
  | cons c cs ih =>
    intro s pre t1 mid t2 post h
    rw [calls_cons] at h
    by_cases hf : (s.call c).1.result = Outcome.fatal
    · simp [hf, List.cons_eq_append_iff] at h
    · simp only [hf, if_false] at h
      rcases List.cons_eq_append_iff.mp h with ⟨hpre, hrest⟩ | ⟨pre1, hpre, hrest⟩
      · -- the first entry is the accepted `schedule` of `t1`
        simp only [List.cons.injEq] at hrest
        obtain ⟨hentry, hrest⟩ := hrest
        have hslot : (s.call c).2.manager.preemptTask = some t1 := by
          cases c with
          | run cb ca =>
            cases hs : s.manager.preemptTask with
            | none => simp [call_run_empty s cb ca hs] at hentry
            | some t0 =>
              rw [call_run_occupied s cb ca t0 hs] at hentry
              cases cb <;> cases ca <;> simp at hentry
          | schedule status t =>
            cases hs : s.manager.preemptTask with
            | some t0 => simp [call_schedule_occupied s t0 t status hs] at hentry
            | none =>
              rw [call_schedule_empty s t status hs] at hentry ⊢
              split at hentry <;> simp_all
        exact calls_run_before_schedule cs (s.call c).2 t1 hslot mid t2 post hrest.symm
      · exact ih (s.call c).2 pre1 t1 mid t2 post hrest

/-- C2: in every sequence of calls of the two methods that starts from an empty
slot, the tasks accepted by `trySchedulePreemptionTask` are, in order, the tasks
run followed by the at most one task pending in the slot; a call of
`trySchedulePreemptionTask` on an occupied slot leaves the pending task in
place; and between two calls of `trySchedulePreemptionTask` that return true
there is a call of `tryRunScheduledPreemptionTask` that ran the first task and
returned true. -/
theorem at_most_one_preemption {τ : Type} [DecidableEq τ] (cs : List (Call τ)) :
    (accepted ((Sys.init τ).calls cs).1
      = ((Sys.init τ).calls cs).2.executed ++
          ((Sys.init τ).calls cs).2.manager.preemptTask.toList) ∧
    (((Sys.init τ).calls cs).2.manager.preemptTask.toList.length ≤ 1) ∧
    (∀ (pending t : τ) (status : TypecheckingStatus),
      ((Sys.init τ).calls cs).2.manager.preemptTask = some pending →
      ((((Sys.init τ).calls cs).2.call (Call.schedule status t)).2.manager.preemptTask
          = some pending ∧
        (((Sys.init τ).calls cs).2.call (Call.schedule status t)).1
          ≠ Entry.schedule t (Outcome.returned true))) ∧
    (∀ (pre : List (Entry τ)) (t1 : τ) (mid : List (Entry τ)) (t2 : τ) (post : List (Entry τ)),
      ((Sys.init τ).calls cs).1 = pre ++ Entry.schedule t1 (Outcome.returned true) ::
        (mid ++ Entry.schedule t2 (Outcome.returned true) :: post) →
      Entry.run [t1] (Outcome.returned true) ∈ mid) := by
  refine ⟨?_, ?_, ?_, ?_⟩
  · have h := calls_balance cs (Sys.init τ)
    simpa [Sys.init] using h
  · cases ((Sys.init τ).calls cs).2.manager.preemptTask <;> simp
  · intro pending t status h
    simp [call_schedule_occupied _ pending t status h, h]
  · exact calls_between cs (Sys.init τ)

/-! ### Records of events -/

theorem pushes_append (a b : List Event) : pushes (a ++ b) = pushes a ++ pushes b := by
  induction a with
  | nil => rfl
  | cons e es ih => cases e <;> simp [pushes, ih]

theorem loopRuns_append (a b : List Event) : loopRuns (a ++ b) = loopRuns a ++ loopRuns b := by
  induction a with
  | nil => rfl
  | cons e es ih =>
    cases e with
    | run site t => cases site <;> simp [loopRuns, ih]
    | _ => simp [loopRuns, ih]

theorem runs_append (a b : List Event) : runs (a ++ b) = runs a ++ runs b := by
  induction a with
  | nil => rfl
  | cons e es ih => cases e <;> simp [runs, ih]

theorem bound_append (a b : List Event) : bound (a ++ b) = max (bound a) (bound b) := by
  induction a with
  | nil => simp [bound]
  | cons e es ih => simp [bound, ih, max_assoc]

theorem bound_of_mem {e : Event} {tr : List Event} (h : e ∈ tr) : e.bound ≤ bound tr := by
  induction tr with
  | nil => simp at h
  | cons x xs ih =>
    rcases List.mem_cons.mp h with rfl | h
    · simp [bound]
    · have := ih h
      simp only [bound]
      omega

theorem precedes_of_not_mem {a b : Event} {tr : List Event} (h : b ∉ tr) :
    precedes a b tr = true := by
  induction tr with
  | nil => rfl
  | cons e es ih =>
    simp only [List.mem_cons, not_or] at h
    simp only [precedes]
    split
    · rfl
    · rw [if_neg (fun h1 => h.1 h1.symm)]
      exact ih h.2

theorem precedes_append_of_mem {a b : Event} {tr : List Event} (es : List Event)
    (hmem : a ∈ tr) (h : precedes a b tr = true) : precedes a b (tr ++ es) = true := by
  induction tr with
  | nil => simp at hmem
  | cons e tr ih =>
    simp only [precedes, List.cons_append] at h ⊢
    by_cases h1 : e = a
    · simp [h1]
    · rw [if_neg h1] at h ⊢
      by_cases h2 : e = b
      · simp [h2] at h
      · rw [if_neg h2] at h ⊢
        rcases List.mem_cons.mp hmem with h3 | h3
        · exact absurd h3.symm h1
        · exact ih h3 h

theorem precedes_append {a b : Event} {tr es : List Event}
    (h1 : precedes a b tr = true) (h2 : precedes a b es = true) :
    precedes a b (tr ++ es) = true := by
  induction tr with
  | nil => simpa using h2
  | cons e tr ih =>
    simp only [precedes, List.cons_append] at h1 ⊢
    by_cases h3 : e = a
    · simp [h3]
    · rw [if_neg h3] at h1 ⊢
      by_cases h4 : e = b
      · simp [h4] at h1
      · rw [if_neg h4] at h1 ⊢
        exact ih h1

/-- When `precedes a b` holds, every `b` of the record has an `a` before it. -/
theorem precedes_split {a b : Event} {tr : List Event} (hab : a ≠ b)
    (h : precedes a b tr = true) (pre post : List Event) (hsplit : tr = pre ++ b :: post) :
    a ∈ pre := by
  induction tr generalizing pre with
  | nil => simp at hsplit
  | cons e tr ih =>
    simp only [precedes] at h
    cases pre with
    | nil =>
      simp only [List.nil_append, List.cons.injEq] at hsplit
      have h1 : e ≠ a := fun h1 => hab (h1.symm.trans hsplit.1)
      rw [if_neg h1, if_pos hsplit.1] at h
      exact absurd h (by simp)
    | cons x pre =>
      simp only [List.cons_append, List.cons.injEq] at hsplit
      by_cases h1 : e = a
      · simp [← hsplit.1, h1]
      · rw [if_neg h1] at h
        by_cases h2 : e = b
        · simp [h2] at h
        · rw [if_neg h2] at h
          exact List.mem_cons_of_mem _ (ih h pre hsplit.2)

/-! ### What running a task changes -/

theorem Task.run_trace (site : Site) (t : Task) (m : Machine) :
    (t.run site m).trace = m.trace ++ t.runEvents site := by
  rcases t with ⟨u, n⟩ | ⟨p⟩ | ⟨l, n, hdt⟩
  · simp [Task.run, Task.runEvents, Machine.emit]
  · cases h : p.hasDedicatedThread <;>
      simp [Task.run, Task.runEvents, Machine.emit, Lambda.run, h]
  · cases l <;> cases hdt <;>
      simp [Task.run, Task.runEvents, Machine.emit, Lambda.run, Lambda.events]

theorem Task.run_fields (site : Site) (t : Task) (m : Machine) :
    (t.run site m).tasks = m.tasks ∧ (t.run site m).preemption = m.preemption ∧
    (t.run site m).caller = m.caller ∧ (t.run site m).thread = m.thread ∧
    (t.run site m).nextNotification = m.nextNotification ∧
    (t.run site m).hasDedicatedThread = m.hasDedicatedThread ∧
    (t.run site m).shutdownResults = m.shutdownResults := by
  rcases t with ⟨u, n⟩ | ⟨p⟩ | ⟨l, n, hdt⟩
  · simp [Task.run, Machine.emit]
  · cases h : p.hasDedicatedThread <;> simp [Task.run, Machine.emit, Lambda.run, h]
  · cases l <;> cases hdt <;> simp [Task.run, Machine.emit, Lambda.run]

theorem Task.run_hasDedicatedThread (site : Site) (t : Task) (m : Machine) :
    (t.run site m).hasDedicatedThread = m.hasDedicatedThread :=
  (Task.run_fields site t m).2.2.2.2.2.1

theorem Task.run_thread (site : Site) (t : Task) (m : Machine) :
    (t.run site m).thread = m.thread :=
  (Task.run_fields site t m).2.2.2.1

theorem Task.run_tasks (site : Site) (t : Task) (m : Machine) :
    (t.run site m).tasks = m.tasks :=
  (Task.run_fields site t m).1

theorem Task.run_caller (site : Site) (t : Task) (m : Machine) :
    (t.run site m).caller = m.caller :=
  (Task.run_fields site t m).2.2.1

theorem Task.run_preemption (site : Site) (t : Task) (m : Machine) :
    (t.run site m).preemption = m.preemption :=
  (Task.run_fields site t m).2.1

theorem Task.run_preemptLocal (site : Site) (t : Task) (m : Machine) :
    (t.run site m).preemptLocal = m.preemptLocal := by
  rcases t with ⟨u, n⟩ | ⟨p⟩ | ⟨l, n, hdt⟩
  · simp [Task.run, Machine.emit]
  · cases h : p.hasDedicatedThread <;> simp [Task.run, Machine.emit, Lambda.run, h]
  · cases l <;> cases hdt <;> simp [Task.run, Machine.emit, Lambda.run]

theorem slotPending_congr {m m1 : Machine} (h1 : m1.preemption = m.preemption)
    (h2 : m1.preemptLocal = m.preemptLocal) : m1.slotPending = m.slotPending := by
  simp [Machine.slotPending, h1, h2]

theorem inFlight_congr {m m1 : Machine} (h1 : m1.thread = m.thread)
    (h2 : m1.caller = m.caller) : m1.inFlight = m.inFlight := by
  simp [Machine.inFlight, h1, h2]

theorem Task.run_slotPending (site : Site) (t : Task) (m : Machine) :
    (t.run site m).slotPending = m.slotPending :=
  slotPending_congr (Task.run_preemption site t m) (Task.run_preemptLocal site t m)

theorem Task.run_inFlight (site : Site) (t : Task) (m : Machine) :
    (t.run site m).inFlight = m.inFlight :=
  inFlight_congr (Task.run_thread site t m) (Task.run_caller site t m)

theorem inFlight_of_slowPath {m : Machine} {t : Task} (h : m.thread = Thread.slowPath t) :
    m.inFlight = true := by
  simp [Machine.inFlight, h]

theorem inFlight_of_inTypecheck {m : Machine} {t : Task} (h : m.caller = Caller.inTypecheck t) :
    m.inFlight = true := by
  unfold Machine.inFlight
  split <;> simp_all

theorem inFlight_cases {m : Machine} (h : m.inFlight = true) :
    (∃ t, m.thread = Thread.slowPath t) ∨ (∃ t, m.caller = Caller.inTypecheck t) := by
  unfold Machine.inFlight at h
  split at h
  · rename_i t _
    exact Or.inl ⟨t, by assumption⟩
  · rename_i t _ _
    exact Or.inr ⟨t, by assumption⟩
  · simp at h

/-- The turn of the dedicated thread, with the pop of the queue spelled out. -/
theorem threadLoop_def (m : Machine) :
    threadLoop m
      = match m.thread with
        | Thread.starting =>
          some { m with thread := Thread.polling, trace := m.trace ++ [Event.changeThread] }
        | Thread.polling =>
          if m.shouldTerminate then some { m with thread := Thread.exited }
          else match m.tasks with
            | [] => some m
            | task :: rest =>
              some { task.run Site.loop { m with tasks := rest } with
                     thread := if task.isSlowPath then Thread.slowPath task else Thread.polling }
        | _ => none := by
  unfold threadLoop
  split
  · rfl
  · split
    · rfl
    · cases h : m.tasks <;> simp [TaskQueue.wait_pop_timed]
  · rfl

theorem Machine.set_thread_self (x : Machine) (th : Thread) (h : x.thread = th) :
    { x with thread := th } = x := by
  cases x
  simp only at h
  simp [h]

theorem threadLoop_sync {m : Machine} (t : Task) (rest : List Task)
    (hth : m.thread = Thread.polling) (hst : m.shouldTerminate = false)
    (htasks : m.tasks = t :: rest) (hsp : t.isSlowPath = false) :
    threadLoop m = some (t.run Site.loop { m with tasks := rest }) := by
  rw [threadLoop_def]
  simp only [hth, hst, htasks, hsp]
  simp only [Bool.false_eq_true, if_false, Option.some.injEq]
  have h1 := Machine.set_thread_self (t.run Site.loop { m with tasks := rest }) Thread.polling
    (by rw [Task.run_thread]; exact hth)
  simp only [hth, hst] at h1
  exact h1

theorem Task.finish_trace (t : Task) (result : Bool) (m : Machine) :
    (t.finish result m).trace = m.trace ++ t.finishEvents result := by
  rcases t with ⟨u, n⟩ | ⟨p⟩ | ⟨l, n, hdt⟩ <;>
    simp [Task.finish, Task.finishEvents, Machine.emit]

theorem Task.finish_fields (t : Task) (result : Bool) (m : Machine) :
    (t.finish result m).tasks = m.tasks ∧ (t.finish result m).preemption = m.preemption ∧
    (t.finish result m).caller = m.caller ∧ (t.finish result m).thread = m.thread ∧
    (t.finish result m).nextNotification = m.nextNotification ∧
    (t.finish result m).hasDedicatedThread = m.hasDedicatedThread ∧
    (t.finish result m).shutdownResults = m.shutdownResults ∧
    (t.finish result m).shouldTerminate = m.shouldTerminate ∧
    (t.finish result m).typechecker = m.typechecker ∧
    (t.finish result m).gs = m.gs ∧
    (t.finish result m).preemptLocal = m.preemptLocal := by
  rcases t with ⟨u, n⟩ | ⟨p⟩ | ⟨l, n, hdt⟩ <;> simp [Task.finish, Machine.emit]

theorem mark_injective {t1 t2 : Task} (h : t1.mark = t2.mark) : t1 = t2 := by
  rcases t1 with ⟨u, n⟩ | ⟨p⟩ | ⟨l, n, hdt⟩ <;> rcases t2 with ⟨u2, n2⟩ | ⟨p2⟩ | ⟨l2, n2, hdt2⟩ <;>
    simp_all [Task.mark]

theorem mark_bound (t : Task) : t.mark.bound = t.notification + 1 := by
  rcases t with ⟨u, n⟩ | ⟨p⟩ | ⟨l, n, hdt⟩ <;> simp [Task.mark, Event.bound]

theorem mark_ne_notify (t : Task) (n : Nat) : t.mark ≠ Event.notify n := by
  rcases t with ⟨u, n⟩ | ⟨p⟩ | ⟨l, n, hdt⟩ <;> simp [Task.mark]

theorem mark_ne_returned (t t1 : Task) : t.mark ≠ Event.returned t1 := by
  rcases t with ⟨u, n⟩ | ⟨p⟩ | ⟨l, n, hdt⟩ <;> simp [Task.mark]

theorem runEvents_bound (site : Site) (t : Task) :
    bound (t.runEvents site) = t.notification + 1 := by
  rcases t with ⟨u, n⟩ | ⟨p⟩ | ⟨l, n, hdt⟩
  · simp [Task.runEvents, bound, Event.bound, Task.notification]
  · cases h : p.hasDedicatedThread <;>
      simp [Task.runEvents, bound, Event.bound, Task.notification, h]
  · cases l <;> cases hdt <;>
      simp [Task.runEvents, Lambda.events, bound, Event.bound, Task.notification]

theorem runEvents_notify (site : Site) (t : Task) (n : Nat) :
    Event.notify n ∈ t.runEvents site ↔ n = t.notification := by
  rcases t with ⟨u, n⟩ | ⟨p⟩ | ⟨l, n, hdt⟩
  · simp [Task.runEvents, Task.notification]
  · cases h : p.hasDedicatedThread <;> simp [Task.runEvents, Task.notification, h]
  · cases l <;> cases hdt <;> simp [Task.runEvents, Lambda.events, Task.notification]

theorem runEvents_returned (site : Site) (t t1 : Task) :
    Event.returned t1 ∉ t.runEvents site := by
  rcases t with ⟨u, n⟩ | ⟨p⟩ | ⟨l, n, hdt⟩
  · simp [Task.runEvents]
  · cases h : p.hasDedicatedThread <;> simp [Task.runEvents, h]
  · cases l <;> cases hdt <;> simp [Task.runEvents, Lambda.events]

theorem runEvents_count_mark (site : Site) (t t1 : Task) :
    (t.runEvents site).count t1.mark = if t1 = t then 1 else 0 := by
  by_cases h : t1 = t
  · subst h
    rcases t1 with ⟨u, n⟩ | ⟨p⟩ | ⟨l, n, hdt⟩
    · simp [Task.runEvents, Task.mark, List.count_cons]
    · cases h : p.hasDedicatedThread <;> simp [Task.runEvents, Task.mark, List.count_cons, h]
    · cases l <;> cases hdt <;>
        simp [Task.runEvents, Lambda.events, Task.mark, List.count_cons]
  · rw [if_neg h]
    apply List.count_eq_zero.mpr
    intro hmem
    apply h
    apply mark_injective
    rcases t with ⟨u, n⟩ | ⟨p⟩ | ⟨l, n, hdt⟩
    · have := mark_ne_notify t1 n
      simp [Task.runEvents] at hmem
      rcases t1 with ⟨u1, n1⟩ | ⟨p1⟩ | ⟨l1, n1, hdt1⟩ <;> simp_all [Task.mark]
    · cases h : p.hasDedicatedThread <;> simp [Task.runEvents, h] at hmem <;>
        rcases t1 with ⟨u1, n1⟩ | ⟨p1⟩ | ⟨l1, n1, hdt1⟩ <;> simp_all [Task.mark]
    · cases l <;> cases hdt <;> simp [Task.runEvents, Lambda.events] at hmem <;>
        rcases t1 with ⟨u1, n1⟩ | ⟨p1⟩ | ⟨l1, n1, hdt1⟩ <;> simp_all [Task.mark]

theorem runEvents_mark_mem (site : Site) (t : Task) : t.mark ∈ t.runEvents site := by
  have h := runEvents_count_mark site t t
  rw [if_pos rfl] at h
  exact List.count_pos_iff.mp (by omega)

theorem runEvents_precedes (site : Site) (t : Task) :
    precedes t.mark (Event.notify t.notification) (t.runEvents site) = true := by
  rcases t with ⟨u, n⟩ | ⟨p⟩ | ⟨l, n, hdt⟩
  · simp [Task.runEvents, Task.mark, precedes]
  · cases h : p.hasDedicatedThread <;> simp [Task.runEvents, Task.mark, precedes, h]
  · cases l <;> cases hdt <;> simp [Task.runEvents, Lambda.events, Task.mark, precedes]

theorem runEvents_run (site : Site) (t : Task) (s : Site) (t1 : Task)
    (h : Event.run s t1 ∈ t.runEvents site) : s = site ∧ t1 = t := by
  rcases t with ⟨u, n⟩ | ⟨p⟩ | ⟨l, n, hdt⟩
  · simpa [Task.runEvents] using h
  · cases hp : p.hasDedicatedThread <;> simpa [Task.runEvents, hp] using h
  · cases l <;> cases hdt <;> simpa [Task.runEvents, Lambda.events] using h

theorem runEvents_pushes (site : Site) (t : Task) : pushes (t.runEvents site) = [] := by
  rcases t with ⟨u, n⟩ | ⟨p⟩ | ⟨l, n, hdt⟩
  · simp [Task.runEvents, pushes]
  · cases h : p.hasDedicatedThread <;> simp [Task.runEvents, pushes, h]
  · cases l <;> cases hdt <;> simp [Task.runEvents, Lambda.events, pushes]

theorem runEvents_runs (site : Site) (t : Task) : runs (t.runEvents site) = [t] := by
  rcases t with ⟨u, n⟩ | ⟨p⟩ | ⟨l, n, hdt⟩
  · simp [Task.runEvents, runs]
  · cases h : p.hasDedicatedThread <;> simp [Task.runEvents, runs, h]
  · cases l <;> cases hdt <;> simp [Task.runEvents, Lambda.events, runs]

theorem runEvents_loopRuns (site : Site) (t : Task) :
    loopRuns (t.runEvents site) = if site = Site.loop then [t] else [] := by
  rcases t with ⟨u, n⟩ | ⟨p⟩ | ⟨l, n, hdt⟩
  · cases site <;> simp [Task.runEvents, loopRuns]
  · cases site <;> cases h : p.hasDedicatedThread <;> simp [Task.runEvents, loopRuns, h]
  · cases site <;> cases l <;> cases hdt <;> simp [Task.runEvents, Lambda.events, loopRuns]

theorem finishEvents_facts (t : Task) (result : Bool) :
    bound (t.finishEvents result) ≤ t.notification + 1 ∧
    (∀ n, Event.notify n ∉ t.finishEvents result) ∧
    (∀ t1, Event.returned t1 ∉ t.finishEvents result) ∧
    (∀ t1 : Task, t1.mark ∉ t.finishEvents result) ∧
    (∀ s t1, Event.run s t1 ∉ t.finishEvents result) ∧
    pushes (t.finishEvents result) = [] ∧ runs (t.finishEvents result) = [] ∧
    loopRuns (t.finishEvents result) = [] ∧
    (t.finishEvents result).count Event.spawn = 0 := by
  rcases t with ⟨u, n⟩ | ⟨p⟩ | ⟨l, n, hdt⟩
  · cases result <;>
      simp [Task.finishEvents, bound, Event.bound, Task.notification, pushes, runs, loopRuns] <;>
      intro t1 <;> rcases t1 with ⟨u1, n1⟩ | ⟨p1⟩ | ⟨l1, n1, hdt1⟩ <;> simp [Task.mark]
  · simp [Task.finishEvents, bound, pushes, runs, loopRuns]
  · simp [Task.finishEvents, bound, pushes, runs, loopRuns]

/-! ### The invariant is kept by every kind of move -/

theorem not_mem_of_bound {e : Event} {tr : List Event} (h : bound tr < e.bound) : e ∉ tr :=
  fun hmem => absurd (bound_of_mem hmem) (by omega)

theorem history_mono {tr : List Event} (es : List Event) {t : Task}
    (h : t.mark ∈ tr ∧ Event.notify t.notification ∈ tr ∧
      precedes t.mark (Event.notify t.notification) tr = true ∧
      precedes (Event.notify t.notification) (Event.returned t) tr = true) :
    t.mark ∈ tr ++ es ∧ Event.notify t.notification ∈ tr ++ es ∧
      precedes t.mark (Event.notify t.notification) (tr ++ es) = true ∧
      precedes (Event.notify t.notification) (Event.returned t) (tr ++ es) = true :=
  ⟨List.mem_append_left _ h.1, List.mem_append_left _ h.2.1,
    precedes_append_of_mem es h.1 h.2.2.1, precedes_append_of_mem es h.2.1 h.2.2.2⟩

/-- A move that leaves only events that are neither a mark, a notification nor a
return, and changes neither the pending tasks nor the task of the caller. -/
theorem Inv.quiet {m m1 : Machine} (h : Inv m) (es : List Event)
    (htrace : m1.trace = m.trace ++ es)
    (hnext : m1.nextNotification = m.nextNotification)
    (hbound : bound es ≤ m.nextNotification)
    (hnotify : ∀ n, Event.notify n ∉ es)
    (hret : ∀ t, Event.returned t ∉ es)
    (hmark : ∀ t : Task, t.mark ∉ es)
    (hrun : ∀ t, Event.run Site.inline t ∉ es)
    (hinl : ∀ t : Task, t.isSlowPath = true → m.caller = Caller.inTypecheck t →
      m1.caller = Caller.inTypecheck t ∨ ∃ r, Event.typecheckEnd t r ∈ es)
    (hcaller : m1.caller.task = m.caller.task)
    (hwait : ∀ t, m.caller = Caller.waiting t → m1.caller = Caller.waiting t)
    (hpending : m1.pending = m.pending)
    (hthread : ∀ t, m1.thread = Thread.slowPath t → m.thread = Thread.slowPath t) :
    Inv m1 := by
  refine ⟨?_, ?_, ?_, ?_, ?_, ?_, ?_, ?_, ?_, ?_⟩
  rotate_left 8
  · intro t hsp hx
    rw [htrace] at hx ⊢
    rcases List.mem_append.mp hx with hx | hx
    · rcases h.inline t hsp hx with hc | ⟨r, hr⟩
      · rcases hinl t hsp hc with hc1 | ⟨r, hr⟩
        · exact Or.inl hc1
        · exact Or.inr ⟨r, List.mem_append_right _ hr⟩
      · exact Or.inr ⟨r, List.mem_append_left _ hr⟩
    · exact absurd hx (hrun t)
  · intro t hsp hret1 hx
    rw [htrace] at hret1 hx ⊢
    have hret2 : Event.returned t ∈ m.trace :=
      (List.mem_append.mp hret1).elim id (fun hy => absurd hy (hret t))
    have hx2 : Event.run Site.inline t ∈ m.trace :=
      (List.mem_append.mp hx).elim id (fun hy => absurd hy (hrun t))
    obtain ⟨r, h1, h2⟩ := h.inline_history t hsp hret2 hx2
    exact ⟨r, List.mem_append_left _ h1, precedes_append_of_mem _ h1 h2⟩
  · rw [htrace, hnext, bound_append]
    have := h.fresh_trace
    omega
  · intro t ht
    rw [hnext]
    exact h.fresh_caller t (hcaller ▸ ht)
  · intro t ht
    rw [hnext]
    exact h.fresh_thread t (hthread t ht)
  · rw [hpending]
    exact h.pending_length
  · intro t ht
    rw [hpending] at ht
    obtain ⟨h1, h2, h3⟩ := h.pending_caller t ht
    refine ⟨hwait t h1, ?_, ?_⟩
    · rw [htrace, List.mem_append]
      exact fun hx => hx.elim h2 (hnotify _)
    · rw [htrace, List.mem_append]
      exact fun hx => hx.elim h3 (hmark _)
  · intro t ht
    obtain ⟨h1, h2, h3⟩ := h.current t (hcaller ▸ ht)
    rw [htrace]
    refine ⟨?_, precedes_append h2 (precedes_of_not_mem (hnotify _)), ?_⟩
    · rw [List.mem_append]
      exact fun hx => hx.elim h1 (hret _)
    · intro hx
      rcases List.mem_append.mp hx with hx | hx
      · exact List.mem_append_left _ (h3 hx)
      · exact absurd hx (hnotify _)
  · intro t ht
    rw [htrace] at ht ⊢
    rcases List.mem_append.mp ht with hx | hx
    · exact history_mono es (h.history t hx)
    · exact absurd hx (hret _)
  · intro t
    rw [htrace, List.count_append, List.count_eq_zero.mpr (hmark t)]
    exact h.mark_once t

/-- With the message processing thread idle no task waits to be run. -/
theorem Inv.pending_idle {m : Machine} (h : Inv m) (hidle : m.caller = Caller.idle) :
    m.pending = [] := by
  cases hp : m.pending with
  | nil => rfl
  | cons t rest =>
    have := (h.pending_caller t (by simp [hp])).1
    simp [hidle] at this

/-- A new call whose task is put on the queue or in the preemption slot. -/
theorem Inv.submit {m m1 : Machine} (h : Inv m) (t : Task) (es : List Event)
    (hidle : m.caller = Caller.idle)
    (hfresh : t.notification = m.nextNotification)
    (htrace : m1.trace = m.trace ++ es)
    (hes : es = [] ∨ es = [Event.push t])
    (hnext : m1.nextNotification = m.nextNotification + 1)
    (hcaller : m1.caller = Caller.waiting t)
    (hpending : m1.pending = [t])
    (hthread : m1.thread = m.thread) :
    Inv m1 := by
  have hb := h.fresh_trace
  have hbes : bound es ≤ m.nextNotification + 1 := by
    rcases hes with rfl | rfl <;> simp [bound, Event.bound, hfresh]
  have hnotify : Event.notify t.notification ∉ m1.trace := by
    rw [htrace, List.mem_append]
    rintro (hx | hx)
    · exact not_mem_of_bound (by simp [Event.bound]; omega) hx
    · rcases hes with rfl | rfl <;> simp at hx
  have hmark : t.mark ∉ m1.trace := by
    rw [htrace, List.mem_append]
    rintro (hx | hx)
    · exact not_mem_of_bound (by rw [mark_bound]; omega) hx
    · rcases hes with rfl | rfl
      · simp at hx
      · rcases t with ⟨u, n⟩ | ⟨p⟩ | ⟨l, n, hdt⟩ <;> simp [Task.mark] at hx
  have hret : Event.returned t ∉ m1.trace := by
    rw [htrace, List.mem_append]
    rintro (hx | hx)
    · exact not_mem_of_bound (by simp [Event.bound]; omega) hx
    · rcases hes with rfl | rfl <;> simp at hx
  have hrunes : ∀ t1, Event.run Site.inline t1 ∉ es := by
    intro t1
    rcases hes with rfl | rfl <;> simp
  have hretes : ∀ t1, Event.returned t1 ∉ es := by
    intro t1
    rcases hes with rfl | rfl <;> simp
  refine ⟨?_, ?_, ?_, ?_, ?_, ?_, ?_, ?_, ?_, ?_⟩
  rotate_left 8
  · intro t1 hsp hx
    rw [htrace] at hx ⊢
    rcases List.mem_append.mp hx with hx | hx
    · rcases h.inline t1 hsp hx with hc | ⟨r, hr⟩
      · simp [hidle] at hc
      · exact Or.inr ⟨r, List.mem_append_left _ hr⟩
    · exact absurd hx (hrunes t1)
  · intro t1 hsp hret1 hx
    rw [htrace] at hret1 hx ⊢
    have hret2 : Event.returned t1 ∈ m.trace :=
      (List.mem_append.mp hret1).elim id (fun hy => absurd hy (hretes t1))
    have hx2 : Event.run Site.inline t1 ∈ m.trace :=
      (List.mem_append.mp hx).elim id (fun hy => absurd hy (hrunes t1))
    obtain ⟨r, h1, h2⟩ := h.inline_history t1 hsp hret2 hx2
    exact ⟨r, List.mem_append_left _ h1, precedes_append_of_mem _ h1 h2⟩
  · rw [htrace, hnext, bound_append]
    omega
  · intro t1 ht1
    simp only [hcaller, Caller.task, Option.some.injEq] at ht1
    subst ht1
    omega
  · intro t1 ht1
    rw [hthread] at ht1
    have := h.fresh_thread t1 ht1
    omega
  · simp [hpending]
  · intro t1 ht1
    simp only [hpending, List.mem_singleton] at ht1
    subst ht1
    exact ⟨hcaller, hnotify, hmark⟩
  · intro t1 ht1
    simp only [hcaller, Caller.task, Option.some.injEq] at ht1
    subst ht1
    exact ⟨hret, precedes_of_not_mem hnotify, fun hx => absurd hx hnotify⟩
  · intro t1 ht1
    rw [htrace] at ht1 ⊢
    rcases List.mem_append.mp ht1 with hx | hx
    · exact history_mono es (h.history t1 hx)
    · rcases hes with rfl | rfl <;> simp at hx
  · intro t1
    have hz : es.count t1.mark = 0 := by
      rcases hes with rfl | rfl
      · simp
      · rcases t1 with ⟨u, n⟩ | ⟨p⟩ | ⟨l, n, hdt⟩ <;> simp [Task.mark, List.count_cons]
    rw [htrace, List.count_append, hz]
    exact h.mark_once t1

/-- The events of a task that runs for the first time, added to the record. -/
theorem Inv.ran {m m1 : Machine} (h : Inv m) (t : Task) (site : Site)
    (htrace : m1.trace = m.trace ++ t.runEvents site)
    (hnext1 : t.notification < m1.nextNotification)
    (hnext2 : m.nextNotification ≤ m1.nextNotification)
    (hcaller : m1.caller.task = some t)
    (hnotify : Event.notify t.notification ∉ m.trace)
    (hmark : t.mark ∉ m.trace)
    (hret : Event.returned t ∉ m.trace)
    (hpending : m1.pending = [])
    (hthread : ∀ t1, m1.thread = Thread.slowPath t1 → t1 = t ∨ m.thread = Thread.slowPath t1)
    (hinl : ∀ t1, m.caller = Caller.inTypecheck t1 → m1.caller = Caller.inTypecheck t1)
    (hnew : site = Site.inline → t.isSlowPath = true → m1.caller = Caller.inTypecheck t) :
    Inv m1 := by
  refine ⟨?_, ?_, ?_, ?_, ?_, ?_, ?_, ?_, ?_, ?_⟩
  rotate_left 8
  · intro t1 hsp hx
    rw [htrace] at hx ⊢
    rcases List.mem_append.mp hx with hx | hx
    · rcases h.inline t1 hsp hx with hc | ⟨r, hr⟩
      · exact Or.inl (hinl t1 hc)
      · exact Or.inr ⟨r, List.mem_append_left _ hr⟩
    · obtain ⟨hs1, ht1⟩ := runEvents_run site t Site.inline t1 hx
      subst ht1
      exact Or.inl (hnew hs1.symm hsp)
  · intro t1 hsp hret1 hx
    rw [htrace] at hret1 hx ⊢
    have hret2 : Event.returned t1 ∈ m.trace :=
      (List.mem_append.mp hret1).elim id (fun hy => absurd hy (runEvents_returned site t t1))
    rcases List.mem_append.mp hx with hx | hx
    · obtain ⟨r, h1, h2⟩ := h.inline_history t1 hsp hret2 hx
      exact ⟨r, List.mem_append_left _ h1, precedes_append_of_mem _ h1 h2⟩
    · obtain ⟨_, ht1⟩ := runEvents_run site t Site.inline t1 hx
      subst ht1
      exact absurd hret2 hret
  · rw [htrace, bound_append, runEvents_bound]
    have := h.fresh_trace
    omega
  · intro t1 ht1
    rw [hcaller, Option.some.injEq] at ht1
    subst ht1
    exact hnext1
  · intro t1 ht1
    rcases hthread t1 ht1 with rfl | hx
    · exact hnext1
    · have := h.fresh_thread t1 hx
      omega
  · simp [hpending]
  · simp [hpending]
  · intro t1 ht1
    rw [hcaller, Option.some.injEq] at ht1
    subst ht1
    rw [htrace]
    refine ⟨?_, precedes_append (precedes_of_not_mem hnotify) (runEvents_precedes site t), ?_⟩
    · rw [List.mem_append]
      exact fun hx => hx.elim hret (runEvents_returned site t t)
    · exact fun _ => List.mem_append_right _ (runEvents_mark_mem site t)
  · intro t1 ht1
    rw [htrace] at ht1 ⊢
    rcases List.mem_append.mp ht1 with hx | hx
    · exact history_mono _ (h.history t1 hx)
    · exact absurd hx (runEvents_returned site t t1)
  · intro t1
    rw [htrace, List.count_append, runEvents_count_mark]
    by_cases ht : t1 = t
    · subst ht
      rw [if_pos rfl, List.count_eq_zero.mpr hmark]
    · rw [if_neg ht]
      exact h.mark_once t1

/-- The return of the call in progress, once its notification was raised. -/
theorem Inv.returned {m m1 : Machine} (h : Inv m) (t : Task) (es : List Event)
    (hwaiting : m.caller = Caller.waiting t)
    (hnotified : Event.notify t.notification ∈ m.trace)
    (htrace : m1.trace = m.trace ++ (es ++ [Event.returned t]))
    (hes : es = [] ∨ es = [Event.counterConsume])
    (hnext : m1.nextNotification = m.nextNotification)
    (hcaller : m1.caller = Caller.idle)
    (hpending : m1.pending = m.pending)
    (hthread : m1.thread = m.thread) :
    Inv m1 := by
  have hcur := h.current t (by simp [hwaiting, Caller.task])
  have hfc := h.fresh_caller t (by simp [hwaiting, Caller.task])
  have hp : m.pending = [] := by
    cases hp : m.pending with
    | nil => rfl
    | cons t1 rest =>
      obtain ⟨h1, h2, _⟩ := h.pending_caller t1 (by simp [hp])
      rw [hwaiting, Caller.waiting.injEq] at h1
      subst h1
      exact absurd hnotified h2
  have hmarkes : ∀ t1 : Task, t1.mark ∉ es ++ [Event.returned t] := by
    intro t1
    rcases hes with rfl | rfl <;>
      rcases t1 with ⟨u, n⟩ | ⟨p⟩ | ⟨l, n, hdt⟩ <;> simp [Task.mark]
  have hrunes : ∀ t1, Event.run Site.inline t1 ∉ es ++ [Event.returned t] := by
    intro t1
    rcases hes with rfl | rfl <;> simp
  refine ⟨?_, ?_, ?_, ?_, ?_, ?_, ?_, ?_, ?_, ?_⟩
  rotate_left 8
  · intro t1 hsp hx
    rw [htrace] at hx ⊢
    rcases List.mem_append.mp hx with hx | hx
    · rcases h.inline t1 hsp hx with hc | ⟨r, hr⟩
      · simp [hwaiting] at hc
      · exact Or.inr ⟨r, List.mem_append_left _ hr⟩
    · exact absurd hx (hrunes t1)
  · intro t1 hsp hret1 hx
    rw [htrace] at hret1 hx ⊢
    have hx2 : Event.run Site.inline t1 ∈ m.trace :=
      (List.mem_append.mp hx).elim id (fun hy => absurd hy (hrunes t1))
    rcases List.mem_append.mp hret1 with hy | hy
    · obtain ⟨r, h1, h2⟩ := h.inline_history t1 hsp hy hx2
      exact ⟨r, List.mem_append_left _ h1, precedes_append_of_mem _ h1 h2⟩
    · have ht : t1 = t := by
        rcases hes with rfl | rfl <;> simpa using hy
      subst ht
      rcases h.inline t1 hsp hx2 with hc | ⟨r, hr⟩
      · simp [hwaiting] at hc
      · exact ⟨r, List.mem_append_left _ hr,
          precedes_append_of_mem _ hr (precedes_of_not_mem hcur.1)⟩
  · rw [htrace, hnext, bound_append]
    have := h.fresh_trace
    have : bound (es ++ [Event.returned t]) = t.notification + 1 := by
      rcases hes with rfl | rfl <;> simp [bound, Event.bound]
    omega
  · intro t1 ht1
    simp [hcaller, Caller.task] at ht1
  · intro t1 ht1
    rw [hthread] at ht1
    rw [hnext]
    exact h.fresh_thread t1 ht1
  · simp [hpending, hp]
  · simp [hpending, hp]
  · intro t1 ht1
    simp [hcaller, Caller.task] at ht1
  · intro t1 ht1
    rw [htrace] at ht1 ⊢
    rcases List.mem_append.mp ht1 with hx | hx
    · exact history_mono _ (h.history t1 hx)
    · have ht : t1 = t := by
        rcases hes with rfl | rfl <;> simpa using hx
      subst ht
      exact ⟨List.mem_append_left _ (hcur.2.2 hnotified), List.mem_append_left _ hnotified,
        precedes_append_of_mem _ (hcur.2.2 hnotified) hcur.2.1,
        precedes_append_of_mem _ hnotified (precedes_of_not_mem hcur.1)⟩
  · intro t1
    rw [htrace, List.count_append, List.count_eq_zero.mpr (hmarkes t1)]
    exact h.mark_once t1

/-! ### Every action keeps the invariant -/

theorem pending_nil_iff (m : Machine) :
    m.pending = [] ↔ m.tasks = [] ∧ m.slotPending = [] := by
  simp [Machine.pending]

theorem pending_congr {m m1 : Machine} (h1 : m1.tasks = m.tasks)
    (h2 : m1.preemption = m.preemption) (h3 : m1.preemptLocal = m.preemptLocal) :
    m1.pending = m.pending := by
  simp [Machine.pending, h1, slotPending_congr h2 h3]

theorem inv_init (g : GlobalState) : Inv (Machine.init g) := by
  refine ⟨?_, ?_, ?_, ?_, ?_, ?_, ?_, ?_, ?_, ?_⟩ <;>
    simp [Machine.init, bound, Caller.task, Machine.pending, Machine.slotPending]

theorem inv_startTypecheckerThread {m : Machine} (h : Inv m) :
    Inv (startTypecheckerThread m).2 := by
  unfold startTypecheckerThread
  split
  · exact h
  · refine h.quiet [Event.spawn] rfl rfl ?_ ?_ ?_ ?_ ?_ (fun t _ ht => Or.inl ht) rfl
      (fun t ht => ht) rfl ?_
    · simp [bound, Event.bound]
    · simp
    · simp
    · intro t
      rcases t with ⟨u, n⟩ | ⟨p⟩ | ⟨l, n, hdt⟩ <;> simp [Task.mark]
    · simp
    · intro t ht
      simp at ht

theorem inv_asyncRunInternal {m m0 : Machine} (h : Inv m) (hidle : m.caller = Caller.idle)
    (t : Task) (c : Caller) (hfresh : t.notification = m.nextNotification)
    (hm0 : m0.trace = m.trace ∧ m0.tasks = m.tasks ∧ m0.slotPending = m.slotPending ∧
      m0.thread = m.thread ∧ m0.nextNotification = m.nextNotification + 1 ∧
      m0.hasDedicatedThread = m.hasDedicatedThread)
    (hc : c.task = some t) (hcw : m.hasDedicatedThread = true → c = Caller.waiting t)
    (hci : m.hasDedicatedThread = false → t.isSlowPath = true → c = Caller.inTypecheck t) :
    Inv { asyncRunInternal m0 t with caller := c } := by
  obtain ⟨h1, h2, h3, h4, h5, h6⟩ := hm0
  have hp := (pending_nil_iff m).mp (h.pending_idle hidle)
  have hb := h.fresh_trace
  unfold asyncRunInternal
  by_cases hdt : m.hasDedicatedThread = true
  · rw [if_pos (h6 ▸ hdt)]
    refine h.submit t [Event.push t] hidle hfresh ?_ (Or.inr rfl) ?_ ?_ ?_ ?_
    · simp [h1]
    · simp [h5]
    · simp [hcw hdt]
    · show TaskQueue.push m0.tasks t ++ m0.slotPending = [t]
      rw [h2, h3, hp.1, hp.2]
      rfl
    · simp [h4]
  · rw [if_neg (h6 ▸ hdt)]
    obtain ⟨f1, f2, f3, f4, f5, f6, f7⟩ := Task.run_fields Site.inline t m0
    refine h.ran t Site.inline ?_ ?_ ?_ ?_ ?_ ?_ ?_ ?_ ?_ ?_ ?_
    rotate_left 9
    · intro t1 ht1
      simp [hidle] at ht1
    · intro _ hsp
      simpa using hci (by simpa using hdt) hsp
    · simp [Task.run_trace, h1]
    · simp [f5, h5, hfresh]
    · simp [f5, h5]
    · simpa using hc
    · exact not_mem_of_bound (by simp [Event.bound]; omega)
    · exact not_mem_of_bound (by rw [mark_bound]; omega)
    · exact not_mem_of_bound (by simp [Event.bound]; omega)
    · show (t.run Site.inline m0).tasks ++ (t.run Site.inline m0).slotPending = []
      rw [Task.run_tasks, Task.run_slotPending, h2, h3, hp.1, hp.2]
      rfl
    · intro t1 ht1
      right
      simpa [f4, h4] using ht1

theorem inv_typecheckAsync {m : Machine} (h : Inv m) (hidle : m.caller = Caller.idle)
    (updates : LSPFileUpdates) : Inv (typecheckAsync m updates) := by
  unfold typecheckAsync
  refine inv_asyncRunInternal h hidle _ _ rfl ⟨rfl, rfl, rfl, rfl, rfl, rfl⟩ ?_ ?_ ?_
  · cases m.hasDedicatedThread <;> simp [Caller.task]
  · intro hdt
    simp [hdt]
  · intro hdt _
    simp [hdt]

theorem inv_syncRun {m : Machine} (h : Inv m) (hidle : m.caller = Caller.idle)
    (lambda : Lambda) : Inv (syncRun m lambda) := by
  unfold syncRun
  exact inv_asyncRunInternal h hidle _ _ rfl ⟨rfl, rfl, rfl, rfl, rfl, rfl⟩ rfl (fun _ => rfl)
    (fun _ hsp => by simp [Task.isSlowPath] at hsp)

theorem inv_shutdown {m : Machine} (h : Inv m) (hidle : m.caller = Caller.idle) :
    Inv (shutdown m) := by
  unfold shutdown syncRun
  exact inv_asyncRunInternal h hidle _ _ rfl ⟨rfl, rfl, rfl, rfl, rfl, rfl⟩ rfl (fun _ => rfl)
    (fun _ hsp => by simp [Task.isSlowPath] at hsp)

theorem inv_syncRunPreempt {m m1 : Machine} (hc : Clearing m) (h : Inv m)
    (hidle : m.caller = Caller.idle)
    (lambda : Nat) (status : TypecheckingStatus) (hs : syncRunPreempt m lambda status = some m1) :
    Inv m1 := by
  have hp := (pending_nil_iff m).mp (h.pending_idle hidle)
  have hlocal : m.preemptLocal = none := by
    cases hl : m.preemptLocal with
    | none => rfl
    | some p0 =>
      have hsl := (hc p0 hl).1
      rcases hm : m.preemption with ⟨slot⟩
      rw [hm] at hsl
      simp only at hsl
      subst hsl
      simp [syncRunPreempt, tryPreempt, hm, trySchedule_occupied] at hs
  have hslot : m.preemption = { preemptTask := none } := by
    rcases hm : m.preemption with ⟨slot⟩
    have := hp.2
    simp only [Machine.slotPending, hlocal, hm] at this
    cases slot with
    | none => rfl
    | some p0 => simp at this
  unfold syncRunPreempt at hs
  simp only [tryPreempt, hslot, trySchedule_empty] at hs
  by_cases hst : status.slowPathRunning = true ∧ status.slowPathWasCanceled = false
  · rw [if_pos hst] at hs
    simp only [Option.some.injEq] at hs
    subst hs
    refine h.submit
      (Task.syncRunPreempt (PreemptTask.mk lambda m.nextNotification m.hasDedicatedThread))
      [] hidle rfl ?_ (Or.inl rfl) rfl rfl ?_ rfl
    · simp
    · simp [Machine.pending, Machine.slotPending, hp.1, hlocal]
  · rw [if_neg hst] at hs
    simp only [Option.some.injEq] at hs
    subst hs
    exact inv_asyncRunInternal h hidle _ _ rfl
      ⟨rfl, rfl, slotPending_congr hslot.symm rfl, rfl, rfl, rfl⟩ rfl
      (fun _ => rfl) (fun _ hsp => by simp [Task.isSlowPath] at hsp)

theorem inv_waitAndReturn {m m1 : Machine} (h : Inv m) (t : Task)
    (hw : m.caller = Caller.waiting t) (hs : waitAndReturn m t = some m1) : Inv m1 := by
  unfold waitAndReturn at hs
  by_cases hn : Event.notify t.notification ∈ m.trace
  · rw [if_pos hn] at hs
    simp only [Option.some.injEq] at hs
    subst hs
    by_cases hc : (!t.isSlowPath && m.hasDedicatedThread) = true
    · refine h.returned t [Event.counterConsume] hw hn ?_ (Or.inr rfl) ?_ rfl ?_ ?_
      · rcases t with ⟨u, n⟩ | ⟨p⟩ | ⟨l, n, hdt⟩ <;> try cases l
        all_goals simp [hc, Machine.emit]
      · rcases t with ⟨u, n⟩ | ⟨p⟩ | ⟨l, n, hdt⟩ <;> try cases l
        all_goals simp [hc, Machine.emit]
      · rcases t with ⟨u, n⟩ | ⟨p⟩ | ⟨l, n, hdt⟩ <;> try cases l
        all_goals simp [hc, Machine.emit, Machine.pending, Machine.slotPending]
      · rcases t with ⟨u, n⟩ | ⟨p⟩ | ⟨l, n, hdt⟩ <;> try cases l
        all_goals simp [hc, Machine.emit]
    · refine h.returned t [] hw hn ?_ (Or.inl rfl) ?_ rfl ?_ ?_
      · rcases t with ⟨u, n⟩ | ⟨p⟩ | ⟨l, n, hdt⟩ <;> try cases l
        all_goals simp [hc, Machine.emit]
      · rcases t with ⟨u, n⟩ | ⟨p⟩ | ⟨l, n, hdt⟩ <;> try cases l
        all_goals simp [hc, Machine.emit]
      · rcases t with ⟨u, n⟩ | ⟨p⟩ | ⟨l, n, hdt⟩ <;> try cases l
        all_goals simp [hc, Machine.emit, Machine.pending, Machine.slotPending]
      · rcases t with ⟨u, n⟩ | ⟨p⟩ | ⟨l, n, hdt⟩ <;> try cases l
        all_goals simp [hc, Machine.emit]
  · rw [if_neg hn] at hs
    simp at hs

theorem inv_threadLoop {m m1 : Machine} (h : Inv m) (hs : threadLoop m = some m1) : Inv m1 := by
  rw [threadLoop_def] at hs
  split at hs
  · simp only [Option.some.injEq] at hs
    subst hs
    refine h.quiet [Event.changeThread] rfl rfl ?_ ?_ ?_ ?_ ?_ (fun t _ ht => Or.inl ht) rfl
      (fun t ht => ht) rfl ?_
    · simp [bound, Event.bound]
    · simp
    · simp
    · intro t
      rcases t with ⟨u, n⟩ | ⟨p⟩ | ⟨l, n, hdt⟩ <;> simp [Task.mark]
    · simp
    · intro t ht
      simp at ht
  · rename_i hpoll
    split at hs
    · simp only [Option.some.injEq] at hs
      subst hs
      refine h.quiet [] (by simp) rfl ?_ ?_ ?_ ?_ ?_ (fun t _ ht => Or.inl ht) rfl
        (fun t ht => ht) rfl ?_
      · simp [bound]
      · simp
      · simp
      · simp
      · simp
      · intro t ht
        simp at ht
    · split at hs
      · simp only [Option.some.injEq] at hs
        subst hs
        exact h
      · rename_i task rest htasks
        simp only [Option.some.injEq] at hs
        subst hs
        have hmem : task ∈ m.pending := by simp [Machine.pending, htasks]
        obtain ⟨hw, hn, hmk⟩ := h.pending_caller task hmem
        have hct : m.caller.task = some task := by simp [hw, Caller.task]
        have hlen := h.pending_length
        have hrest : rest = [] ∧ m.slotPending = [] := by
          cases hsl : m.slotPending <;> cases rest <;>
            simp [Machine.pending, htasks, hsl] at hlen ⊢
        obtain ⟨hr, hslot⟩ := hrest
        subst hr
        obtain ⟨f1, f2, f3, f4, f5, f6, f7⟩ :=
          Task.run_fields Site.loop task { m with tasks := [] }
        refine h.ran task Site.loop ?_ ?_ ?_ ?_ hn hmk (h.current task hct).1 ?_ ?_ ?_ ?_
        rotate_left 6
        · intro t1 ht1
          simpa [f3] using ht1
        · intro hsite
          simp at hsite
        · simp [Task.run_trace]
        · simpa [f5] using h.fresh_caller task hct
        · simp [f5]
        · simpa [f3] using hct
        · show (task.run Site.loop { m with tasks := [] }).tasks
              ++ (task.run Site.loop { m with tasks := [] }).slotPending = []
          rw [Task.run_tasks, Task.run_slotPending]
          exact List.append_eq_nil.mpr ⟨rfl, hslot⟩
        · intro t1 ht1
          left
          by_cases hsp : task.isSlowPath = true
          · simp [hsp] at ht1
            exact ht1.symm
          · simp [hsp] at ht1
  · simp at hs

theorem inv_checkpoint {m m1 : Machine} (h : Inv m) (cb : Bool)
    (hs : checkpoint m cb = some m1) : Inv m1 := by
  unfold checkpoint at hs
  split at hs
  · rename_i hguard
    simp only [Bool.and_eq_true, Option.isNone_iff_eq_none] at hguard
    obtain ⟨_, hlocal⟩ := hguard
    rcases hm : m.preemption with ⟨slot⟩
    rw [hm] at hs
    cases slot with
    | none =>
      simp only [tryRunBegin_empty, Option.some.injEq] at hs
      subst hs
      exact h
    | some p =>
      rw [tryRunBegin_occupied] at hs
      cases cb <;> simp at hs
      subst hs
      have hmem : Task.syncRunPreempt p ∈ m.pending := by
        simp [Machine.pending, Machine.slotPending, hm, hlocal]
      obtain ⟨hw, hn, hmk⟩ := h.pending_caller _ hmem
      have hct : m.caller.task = some (Task.syncRunPreempt p) := by simp [hw, Caller.task]
      have hlen := h.pending_length
      have htasks : m.tasks = [] := by
        cases ht : m.tasks <;>
          simp [Machine.pending, Machine.slotPending, hm, hlocal, ht] at hlen ⊢
      obtain ⟨f1, f2, f3, f4, f5, f6, f7⟩ :=
        Task.run_fields Site.checkpoint (Task.syncRunPreempt p) m
      refine h.ran (Task.syncRunPreempt p) Site.checkpoint ?_ ?_ ?_ ?_ hn hmk
        (h.current _ hct).1 ?_ ?_ ?_ ?_
      rotate_left 6
      · intro t1 ht1
        simpa [PreemptTask.run, f3] using ht1
      · intro hsite
        simp at hsite
      · simp [PreemptTask.run, Task.run_trace]
      · simpa [PreemptTask.run, f5] using h.fresh_caller _ hct
      · simp [PreemptTask.run, f5]
      · simpa [PreemptTask.run, f3] using hct
      · simp [Machine.pending, Machine.slotPending, PreemptTask.run, f1, htasks]
      · intro t1 ht1
        right
        simpa [PreemptTask.run, f4] using ht1
  · simp at hs

theorem inv_checkpointEnd {m m1 : Machine} (h : Inv m) (ca : Bool)
    (hs : checkpointEnd m ca = some m1) : Inv m1 := by
  unfold checkpointEnd at hs
  split at hs
  · rename_i p0 hlocal
    rw [tryRunEnd_eq] at hs
    cases ca <;> simp at hs
    subst hs
    refine h.quiet [] (by simp) rfl ?_ ?_ ?_ ?_ ?_ (fun t _ ht => Or.inl ht) rfl
      (fun t ht => ht) ?_ (fun t ht => ht)
    · simp [bound]
    · simp
    · simp
    · simp
    · simp
    · simp [Machine.pending, Machine.slotPending, hlocal]
  · simp at hs

theorem inv_typecheckReturn {m m1 : Machine} (h : Inv m) (result : Bool)
    (hs : typecheckReturn m result = some m1) : Inv m1 := by
  unfold typecheckReturn at hs
  split at hs
  · simp at hs
  split at hs
  · rename_i t hth
    simp only [Option.some.injEq] at hs
    subst hs
    obtain ⟨f1, f2, f3, f4, f5, f6, f7, _, _, _, f9⟩ :=
      Task.finish_fields t result { m with thread := Thread.polling }
    obtain ⟨e1, e2, e3, e4, e5, _⟩ := finishEvents_facts t result
    have := h.fresh_thread t hth
    refine h.quiet (t.finishEvents result) ?_ ?_ ?_ e2 e3 e4 (e5 _) ?_ ?_ ?_ ?_ ?_
    · simp [Task.finish_trace]
    · simp [f5]
    · omega
    · intro t1 _ ht1
      left
      simpa [f3] using ht1
    · simp [f3]
    · intro t1 ht1
      simpa [f3] using ht1
    · exact pending_congr f1 f2 f9
    · intro t1 ht1
      simp [f4] at ht1
  · split at hs
    · rename_i t hc
      simp only [Option.some.injEq] at hs
      subst hs
      obtain ⟨f1, f2, f3, f4, f5, f6, f7, _, _, _, f9⟩ :=
        Task.finish_fields t result { m with caller := Caller.waiting t }
      obtain ⟨e1, e2, e3, e4, e5, _⟩ := finishEvents_facts t result
      have := h.fresh_caller t (by simp [hc, Caller.task])
      refine h.quiet (t.finishEvents result) ?_ ?_ ?_ e2 e3 e4 (e5 _) ?_ ?_ ?_ ?_ ?_
      · simp [Task.finish_trace]
      · simp [f5]
      · omega
      · intro t1 hsp ht1
        right
        rw [hc, Caller.inTypecheck.injEq] at ht1
        subst ht1
        rcases t with ⟨u, n⟩ | ⟨p⟩ | ⟨l, n, hdt⟩
        · exact ⟨result, by simp [Task.finishEvents]⟩
        · simp [Task.isSlowPath] at hsp
        · simp [Task.isSlowPath] at hsp
      · simp [f3, hc, Caller.task]
      · intro t1 ht1
        simp [hc] at ht1
      · exact pending_congr f1 f2 f9
      · intro t1 ht1
        simpa [f4] using ht1
    · simp at hs

theorem inv_step {m m1 : Machine} (a : Action) (hc : Clearing m) (h : Inv m)
    (hs : step m a = some m1) : Inv m1 := by
  cases a with
  | callerReturn =>
    simp only [step] at hs
    split at hs
    · rename_i t hw
      exact inv_waitAndReturn h t hw hs
    · simp at hs
  | threadLoop => exact inv_threadLoop h hs
  | checkpoint cb => exact inv_checkpoint h cb hs
  | checkpointEnd ca => exact inv_checkpointEnd h ca hs
  | typecheckReturn result => exact inv_typecheckReturn h result hs
  | startTypecheckerThread =>
    simp only [step] at hs
    split at hs
    · simp only [Option.some.injEq] at hs
      subst hs
      exact inv_startTypecheckerThread h
    · simp at hs
  | typecheckAsync updates =>
    simp only [step] at hs
    split at hs
    · rename_i hidle
      simp only [Option.some.injEq] at hs
      subst hs
      exact inv_typecheckAsync h hidle updates
    · simp at hs
  | syncRunPreempt lambda status =>
    simp only [step] at hs
    split at hs
    · rename_i hidle
      exact inv_syncRunPreempt hc h hidle lambda status hs
    · simp at hs
  | syncRun lambda =>
    simp only [step] at hs
    split at hs
    · rename_i hidle
      simp only [Option.some.injEq] at hs
      subst hs
      exact inv_syncRun h hidle _
    · simp at hs
  | shutdown =>
    simp only [step] at hs
    split at hs
    · rename_i hidle
      simp only [Option.some.injEq] at hs
      subst hs
      exact inv_shutdown h hidle
    · simp at hs

/-! ### The dedicated thread is started at most once -/

theorem runEvents_spawn (site : Site) (t : Task) :
    (t.runEvents site).count Event.spawn = 0 := by
  rcases t with ⟨u, n⟩ | ⟨p⟩ | ⟨l, n, hdt⟩
  · simp [Task.runEvents, List.count_cons]
  · cases h : p.hasDedicatedThread <;> simp [Task.runEvents, List.count_cons, h]
  · cases l <;> cases hdt <;> simp [Task.runEvents, Lambda.events, List.count_cons]

theorem spawn_asyncRunInternal (m : Machine) (t : Task) :
    (asyncRunInternal m t).hasDedicatedThread = m.hasDedicatedThread ∧
    (asyncRunInternal m t).thread = m.thread ∧
    (asyncRunInternal m t).trace.count Event.spawn = m.trace.count Event.spawn := by
  unfold asyncRunInternal
  split
  · simp [List.count_cons]
  · obtain ⟨_, _, _, f4, _, f6, _⟩ := Task.run_fields Site.inline t m
    simp [Task.run_trace, f4, f6, runEvents_spawn]

/-- What an action does to `hasDedicatedThread` and to the number of threads
started: nothing, unless it is a call of `startTypecheckerThread` on a
coordinator without a dedicated thread. -/
theorem spawn_step {m m1 : Machine} (a : Action) (hs : step m a = some m1) :
    (m1.hasDedicatedThread = m.hasDedicatedThread ∧
      (m1.thread = Thread.notStarted ↔ m.thread = Thread.notStarted) ∧
      m1.trace.count Event.spawn = m.trace.count Event.spawn) ∨
    (a = Action.startTypecheckerThread ∧ m.hasDedicatedThread = false ∧
      m1.hasDedicatedThread = true ∧ m1.thread = Thread.starting ∧
      m1.trace.count Event.spawn = m.trace.count Event.spawn + 1) := by
  cases a with
  | callerReturn =>
    left
    simp only [step] at hs
    split at hs
    · rename_i t hw
      unfold waitAndReturn at hs
      split at hs
      · simp only [Option.some.injEq] at hs
        subst hs
        rcases t with ⟨u, n⟩ | ⟨p⟩ | ⟨l, n, hdt⟩ <;> try cases l
        all_goals cases hd : m.hasDedicatedThread
        all_goals simp [Task.isSlowPath, Machine.emit, List.count_cons, hd]
      · simp at hs
    · simp at hs
  | threadLoop =>
    left
    simp only [step] at hs
    rw [threadLoop_def] at hs
    split at hs
    · rename_i hth
      simp only [Option.some.injEq] at hs
      subst hs
      simp [List.count_cons, hth]
    · rename_i hth
      split at hs
      · simp only [Option.some.injEq] at hs
        subst hs
        simp [hth]
      · split at hs
        · simp only [Option.some.injEq] at hs
          subst hs
          simp
        · rename_i task rest htasks
          simp only [Option.some.injEq] at hs
          subst hs
          cases hsp : task.isSlowPath <;>
            simp [Task.run_trace, Task.run_hasDedicatedThread, runEvents_spawn, hth, hsp]
    · simp at hs
  | checkpoint cb =>
    left
    simp only [step] at hs
    unfold checkpoint at hs
    split at hs
    · rcases hm : m.preemption with ⟨slot⟩
      rw [hm] at hs
      cases slot with
      | none =>
        simp only [tryRunBegin_empty, Option.some.injEq] at hs
        subst hs
        simp
      | some p =>
        rw [tryRunBegin_occupied] at hs
        cases cb <;> simp at hs
        subst hs
        simp [PreemptTask.run, Task.run_trace, Task.run_hasDedicatedThread, Task.run_thread,
          runEvents_spawn]
    · simp at hs
  | checkpointEnd ca =>
    left
    simp only [step] at hs
    unfold checkpointEnd at hs
    split at hs
    · rw [tryRunEnd_eq] at hs
      cases ca <;> simp at hs
      subst hs
      simp
    · simp at hs
  | typecheckReturn result =>
    left
    simp only [step] at hs
    unfold typecheckReturn at hs
    split at hs
    · simp at hs
    split at hs
    · rename_i t hth
      simp only [Option.some.injEq] at hs
      subst hs
      obtain ⟨_, _, _, _, _, _, _, _, e9⟩ := finishEvents_facts t result
      obtain ⟨_, _, _, f4, _, f6, _⟩ := Task.finish_fields t result { m with thread := Thread.polling }
      simp [Task.finish_trace, f4, f6, e9, hth]
    · split at hs
      · rename_i t hc
        simp only [Option.some.injEq] at hs
        subst hs
        obtain ⟨_, _, _, _, _, _, _, _, e9⟩ := finishEvents_facts t result
        obtain ⟨_, _, _, f4, _, f6, _⟩ :=
          Task.finish_fields t result { m with caller := Caller.waiting t }
        simp [Task.finish_trace, f4, f6, e9]
      · simp at hs
  | startTypecheckerThread =>
    simp only [step] at hs
    split at hs
    · simp only [Option.some.injEq] at hs
      subst hs
      unfold startTypecheckerThread
      by_cases hdt : m.hasDedicatedThread = true
      · left
        simp [hdt]
      · right
        simp [hdt, List.count_cons]
    · simp at hs
  | typecheckAsync updates =>
    left
    simp only [step] at hs
    split at hs
    · simp only [Option.some.injEq] at hs
      subst hs
      obtain ⟨h1, h2, h3⟩ := spawn_asyncRunInternal { m with nextNotification := m.nextNotification + 1 }
        (Task.typecheckAsync updates m.nextNotification)
      simp only [typecheckAsync]
      exact ⟨h1, by rw [h2], h3⟩
    · simp at hs
  | syncRunPreempt lambda status =>
    left
    simp only [step] at hs
    split at hs
    · simp only [syncRunPreempt, tryPreempt] at hs
      split at hs
      · simp at hs
      · simp only [Option.some.injEq] at hs
        subst hs
        simp
      · rename_i pm _
        simp only [Option.some.injEq] at hs
        subst hs
        obtain ⟨h1, h2, h3⟩ := spawn_asyncRunInternal
          { m with nextNotification := m.nextNotification + 1, preemption := pm }
          (Task.syncRunPreempt (PreemptTask.mk lambda m.nextNotification m.hasDedicatedThread))
        exact ⟨h1, by rw [h2], h3⟩
    · simp at hs
  | syncRun lambda =>
    left
    simp only [step] at hs
    split at hs
    · simp only [Option.some.injEq] at hs
      subst hs
      obtain ⟨h1, h2, h3⟩ := spawn_asyncRunInternal { m with nextNotification := m.nextNotification + 1 }
        (Task.syncRun (Lambda.user lambda) m.nextNotification m.hasDedicatedThread)
      simp only [syncRun]
      exact ⟨h1, by rw [h2], h3⟩
    · simp at hs
  | shutdown =>
    left
    simp only [step] at hs
    split at hs
    · simp only [Option.some.injEq] at hs
      subst hs
      obtain ⟨h1, h2, h3⟩ := spawn_asyncRunInternal
        { m with gs := none, nextNotification := m.nextNotification + 1 }
        (Task.syncRun Lambda.shutdown m.nextNotification m.hasDedicatedThread)
      simp only [shutdown, syncRun]
      exact ⟨h1, by rw [h2], h3⟩
    · simp at hs

theorem spawn_exec (actions : List Action) :
    ∀ {m m1 : Machine}, exec m actions = some m1 →
      (m.thread = Thread.notStarted ↔ m.hasDedicatedThread = false) →
      m.trace.count Event.spawn = (if m.hasDedicatedThread then 1 else 0) →
      (m1.thread = Thread.notStarted ↔ m1.hasDedicatedThread = false) ∧
      m1.trace.count Event.spawn = (if m1.hasDedicatedThread then 1 else 0) ∧
      (m.hasDedicatedThread = true → m1.hasDedicatedThread = true) := by
  induction actions with
  | nil =>
    intro m m1 hs h1 h2
    simp only [exec, Option.some.injEq] at hs
    subst hs
    exact ⟨h1, h2, id⟩
  | cons a rest ih =>
    intro m m1 hs h1 h2
    simp only [exec] at hs
    cases hm : step m a with
    | none => simp [hm] at hs
    | some m2 =>
      rw [hm] at hs
      rcases spawn_step a hm with ⟨e1, e2, e3⟩ | ⟨_, e1, e2, e3, e4⟩
      · have := ih hs (by rw [e1, e2]; exact h1) (by rw [e1, e3]; exact h2)
        exact ⟨this.1, this.2.1, fun h => this.2.2 (e1 ▸ h)⟩
      · have := ih hs (by simp [e2, e3]) (by rw [e4, h2]; simp [e1, e2])
        exact ⟨this.1, this.2.1, fun _ => this.2.2 e2⟩

/-! ### The call of `tryRunScheduledPreemptionTask` under way -/

theorem inFlight_mono {m m1 : Machine}
    (h1 : ∀ t, m.thread = Thread.slowPath t → m1.thread = Thread.slowPath t)
    (h2 : ∀ t, m.caller = Caller.inTypecheck t → m1.caller = Caller.inTypecheck t)
    (h : m.inFlight = true) : m1.inFlight = true := by
  rcases inFlight_cases h with ⟨t, ht⟩ | ⟨t, ht⟩
  · exact inFlight_of_slowPath (h1 t ht)
  · exact inFlight_of_inTypecheck (h2 t ht)

theorem clearing_keep {m m1 : Machine} (hc : Clearing m)
    (hloc : m1.preemptLocal = m.preemptLocal) (hpre : m1.preemption = m.preemption)
    (hfl : m.inFlight = true → m1.inFlight = true) : Clearing m1 := by
  intro p hp
  rw [hloc] at hp
  obtain ⟨h1, h2⟩ := hc p hp
  exact ⟨by rw [hpre]; exact h1, hfl h2⟩

theorem clearing_none {m1 : Machine} (h : m1.preemptLocal = none) : Clearing m1 := by
  intro p hp
  simp [h] at hp

theorem clearing_asyncRunInternal {m m0 : Machine} (hc : Clearing m)
    (hidle : m.caller = Caller.idle) (t : Task) (c : Caller)
    (h1 : m0.preemptLocal = m.preemptLocal) (h2 : m0.preemption = m.preemption)
    (h3 : m0.thread = m.thread) :
    Clearing { asyncRunInternal m0 t with caller := c } := by
  have hfl : ∀ m2 : Machine, m2.thread = m.thread → m.inFlight = true → m2.inFlight = true := by
    intro m2 hth
    exact inFlight_mono (fun t ht => by rw [hth]; exact ht) (fun t ht => by simp [hidle] at ht)
  unfold asyncRunInternal
  split
  · exact clearing_keep hc h1 h2 (hfl _ h3)
  · refine clearing_keep hc ?_ ?_ (hfl _ ?_)
    · show (t.run Site.inline m0).preemptLocal = m.preemptLocal
      rw [Task.run_preemptLocal, h1]
    · show (t.run Site.inline m0).preemption = m.preemption
      rw [Task.run_preemption, h2]
    · show (t.run Site.inline m0).thread = m.thread
      rw [Task.run_thread, h3]

theorem clearing_step {m m1 : Machine} (a : Action)
    (hnt : m.hasDedicatedThread = false → m.thread = Thread.notStarted)
    (hc : Clearing m) (hs : step m a = some m1) : Clearing m1 := by
  cases a with
  | callerReturn =>
    simp only [step] at hs
    split at hs
    · rename_i t hw
      unfold waitAndReturn at hs
      split at hs
      · simp only [Option.some.injEq] at hs
        subst hs
        refine clearing_keep hc ?_ ?_ (inFlight_mono ?_ ?_)
        · rcases t with ⟨u, n⟩ | ⟨p⟩ | ⟨l, n, hdt⟩ <;> try cases l
          all_goals cases hd : m.hasDedicatedThread
          all_goals simp [Task.isSlowPath, Machine.emit]
        · rcases t with ⟨u, n⟩ | ⟨p⟩ | ⟨l, n, hdt⟩ <;> try cases l
          all_goals cases hd : m.hasDedicatedThread
          all_goals simp [Task.isSlowPath, Machine.emit]
        · intro t1 ht1
          rcases t with ⟨u, n⟩ | ⟨p⟩ | ⟨l, n, hdt⟩ <;> try cases l
          all_goals cases hd : m.hasDedicatedThread
          all_goals simp [Task.isSlowPath, Machine.emit, ht1]
        · intro t1 ht1
          simp [hw] at ht1
      · simp at hs
    · simp at hs
  | threadLoop =>
    simp only [step] at hs
    rw [threadLoop_def] at hs
    split at hs
    · rename_i hth
      simp only [Option.some.injEq] at hs
      subst hs
      exact clearing_keep hc rfl rfl
        (inFlight_mono (fun t ht => by simp [hth] at ht) (fun t ht => ht))
    · rename_i hth
      split at hs
      · simp only [Option.some.injEq] at hs
        subst hs
        exact clearing_keep hc rfl rfl
          (inFlight_mono (fun t ht => by simp [hth] at ht) (fun t ht => ht))
      · split at hs
        · simp only [Option.some.injEq] at hs
          subst hs
          exact hc
        · rename_i task rest htasks
          simp only [Option.some.injEq] at hs
          subst hs
          refine clearing_keep hc ?_ ?_
            (inFlight_mono (fun t ht => by simp [hth] at ht) (fun t ht => ?_))
          · show (task.run Site.loop { m with tasks := rest }).preemptLocal = m.preemptLocal
            rw [Task.run_preemptLocal]
          · show (task.run Site.loop { m with tasks := rest }).preemption = m.preemption
            rw [Task.run_preemption]
          · show (task.run Site.loop { m with tasks := rest }).caller = Caller.inTypecheck t
            rw [Task.run_caller]
            exact ht
    · simp at hs
  | checkpoint cb =>
    simp only [step] at hs
    unfold checkpoint at hs
    split at hs
    · rename_i hguard
      simp only [Bool.and_eq_true, Option.isNone_iff_eq_none] at hguard
      rcases hm : m.preemption with ⟨slot⟩
      rw [hm] at hs
      cases slot with
      | none =>
        simp only [tryRunBegin_empty, Option.some.injEq] at hs
        subst hs
        exact hc
      | some p =>
        rw [tryRunBegin_occupied] at hs
        cases cb <;> simp at hs
        subst hs
        intro p1 hp1
        simp only [Option.some.injEq] at hp1
        subst hp1
        refine ⟨?_, ?_⟩
        · show (PreemptTask.run p m).preemption.preemptTask = some p
          simp [PreemptTask.run, Task.run_preemption, hm]
        · have h1 : ({ PreemptTask.run p m with preemptLocal := some p } : Machine).inFlight
              = (PreemptTask.run p m).inFlight := inFlight_congr rfl rfl
          exact h1.trans
            ((Task.run_inFlight Site.checkpoint (Task.syncRunPreempt p) m).trans hguard.1)
    · simp at hs
  | checkpointEnd ca =>
    simp only [step] at hs
    unfold checkpointEnd at hs
    split at hs
    · rw [tryRunEnd_eq] at hs
      cases ca <;> simp at hs
      subst hs
      exact clearing_none rfl
    · simp at hs
  | typecheckReturn result =>
    simp only [step] at hs
    unfold typecheckReturn at hs
    split at hs
    · simp at hs
    rename_i hlocal
    have hl : m.preemptLocal = none := by
      cases h : m.preemptLocal <;> simp [h] at hlocal ⊢
    split at hs
    · simp only [Option.some.injEq] at hs
      subst hs
      apply clearing_none
      rw [(Task.finish_fields _ _ _).2.2.2.2.2.2.2.2.2.2]
      exact hl
    · split at hs
      · simp only [Option.some.injEq] at hs
        subst hs
        apply clearing_none
        rw [(Task.finish_fields _ _ _).2.2.2.2.2.2.2.2.2.2]
        exact hl
      · simp at hs
  | startTypecheckerThread =>
    simp only [step] at hs
    split at hs
    · rename_i hidle
      simp only [Option.some.injEq] at hs
      subst hs
      unfold startTypecheckerThread
      split
      · exact hc
      · rename_i hdt
        have hth := hnt (by simpa using hdt)
        apply clearing_none
        cases hl : m.preemptLocal with
        | none => rfl
        | some p =>
          have := (hc p hl).2
          simp [Machine.inFlight, hth, hidle] at this
    · simp at hs
  | typecheckAsync updates =>
    simp only [step] at hs
    split at hs
    · rename_i hidle
      simp only [Option.some.injEq] at hs
      subst hs
      exact clearing_asyncRunInternal hc hidle _ _ rfl rfl rfl
    · simp at hs
  | syncRunPreempt lambda status =>
    simp only [step] at hs
    split at hs
    · rename_i hidle
      simp only [syncRunPreempt, tryPreempt] at hs
      rcases hm : m.preemption with ⟨slot⟩
      rw [hm] at hs
      cases slot with
      | some p0 => simp [trySchedule_occupied] at hs
      | none =>
        have hl : m.preemptLocal = none := by
          cases hl : m.preemptLocal with
          | none => rfl
          | some p =>
            have := (hc p hl).1
            simp [hm] at this
        rw [trySchedule_empty] at hs
        by_cases hst : status.slowPathRunning = true ∧ status.slowPathWasCanceled = false
        · rw [if_pos hst] at hs
          simp only [Option.some.injEq] at hs
          subst hs
          exact clearing_none hl
        · rw [if_neg hst] at hs
          simp only [Option.some.injEq] at hs
          subst hs
          apply clearing_none
          show (asyncRunInternal _ _).preemptLocal = none
          unfold asyncRunInternal
          split
          · exact hl
          · rw [Task.run_preemptLocal]
            exact hl
    · simp at hs
  | syncRun lambda =>
    simp only [step] at hs
    split at hs
    · rename_i hidle
      simp only [Option.some.injEq] at hs
      subst hs
      exact clearing_asyncRunInternal hc hidle _ _ rfl rfl rfl
    · simp at hs
  | shutdown =>
    simp only [step] at hs
    split at hs
    · rename_i hidle
      simp only [Option.some.injEq] at hs
      subst hs
      exact clearing_asyncRunInternal hc hidle _ _ rfl rfl rfl
    · simp at hs

/-! ### Machines reached from the constructor -/

theorem wf_init (g : GlobalState) : Wf (Machine.init g) :=
  ⟨by simp [Machine.init], by simp [Machine.init],
   clearing_none (by simp [Machine.init]), inv_init g⟩

theorem wf_step {m m1 : Machine} (a : Action) (h : Wf m) (hs : step m a = some m1) : Wf m1 := by
  have hc := clearing_step a h.started.mpr h.clearing hs
  have hi := inv_step a h.clearing h.inv hs
  rcases spawn_step a hs with ⟨e1, e2, e3⟩ | ⟨_, e1, e2, e3, e4⟩
  · exact ⟨by rw [e1, e2]; exact h.started, by rw [e1, e3]; exact h.spawned, hc, hi⟩
  · exact ⟨by simp [e2, e3], by rw [e4, h.spawned]; simp [e1, e2], hc, hi⟩

theorem wf_exec (actions : List Action) :
    ∀ {m m1 : Machine}, Wf m → exec m actions = some m1 → Wf m1 := by
  induction actions with
  | nil =>
    intro m m1 h hs
    simp only [exec, Option.some.injEq] at hs
    exact hs ▸ h
  | cons a rest ih =>
    intro m m1 h hs
    simp only [exec] at hs
    cases hm : step m a with
    | none => simp [hm] at hs
    | some m2 =>
      rw [hm] at hs
      exact ih (wf_step a h hm) hs

theorem inv_exec (actions : List Action) {g : GlobalState} {m : Machine}
    (hs : exec (Machine.init g) actions = some m) : Inv m :=
  (wf_exec actions (wf_init g) hs).inv

/-- A checkpoint followed at once by its end is one call of
`tryRunScheduledPreemptionTask` on the slot and the machine. -/
theorem checkpoint_whole (m : Machine) (cb ca : Bool) (hfl : m.inFlight = true)
    (hl : m.preemptLocal = none) :
    (checkpoint m cb).bind (fun m1 =>
        match m1.preemptLocal with
        | some _ => checkpointEnd m1 ca
        | none => some m1)
      = match tryRunScheduledPreemptionTask PreemptTask.run cb ca m.preemption m with
        | (Outcome.fatal, _, _) => none
        | (Outcome.returned _, pm, m1) => some { m1 with preemption := pm } := by
  obtain ⟨sT, tc, hdt, tasks, ⟨slot⟩, pl, gs, sr, caller, thread, nn, tr⟩ := m
  simp only at hl
  subst hl
  cases slot with
  | none => simp [checkpoint, hfl, tryRunBegin_empty, tryRun_empty]
  | some p =>
    have hrun := Task.run_preemptLocal Site.checkpoint (Task.syncRunPreempt p)
      (Machine.mk sT tc hdt tasks (PreemptionTaskManager.mk (some p)) none gs sr caller thread
        nn tr)
    simp only at hrun
    cases cb <;> cases ca <;>
      simp [checkpoint, checkpointEnd, hfl, tryRunBegin_occupied, tryRun_occupied,
        tryRunEnd_eq, PreemptTask.run, hrun]

/-- Between the return of `preemptTask->run()` and the store of `nullptr` the
caller of the task that was run is free again while the slot is still occupied:
a call of `syncRunPreempt` made then ends in the fatal outcome, and one made
after the store is accepted. -/
theorem syncRunPreempt_before_store :
    (exec (Machine.init 0)
        [Action.startTypecheckerThread, Action.threadLoop,
         Action.typecheckAsync (LSPFileUpdates.mk 1 1), Action.threadLoop, Action.callerReturn,
         Action.syncRunPreempt 5 (TypecheckingStatus.mk true false),
         Action.checkpoint false, Action.callerReturn]).isSome = true ∧
    exec (Machine.init 0)
        [Action.startTypecheckerThread, Action.threadLoop,
         Action.typecheckAsync (LSPFileUpdates.mk 1 1), Action.threadLoop, Action.callerReturn,
         Action.syncRunPreempt 5 (TypecheckingStatus.mk true false),
         Action.checkpoint false, Action.callerReturn,
         Action.syncRunPreempt 6 (TypecheckingStatus.mk true false)] = none ∧
    (exec (Machine.init 0)
        [Action.startTypecheckerThread, Action.threadLoop,
         Action.typecheckAsync (LSPFileUpdates.mk 1 1), Action.threadLoop, Action.callerReturn,
         Action.syncRunPreempt 5 (TypecheckingStatus.mk true false),
         Action.checkpoint false, Action.callerReturn, Action.checkpointEnd false,
         Action.syncRunPreempt 6 (TypecheckingStatus.mk true false)]).isSome = true := by
  decide

/-! ### Blocking contract and epoch start -/

theorem mark_of_not_slowPath {t : Task} (h : t.isSlowPath = false) : t.mark = Event.lambda t := by
  rcases t with ⟨u, n⟩ | ⟨p⟩ | ⟨l, n, hdt⟩ <;> simp_all [Task.mark, Task.isSlowPath]

/-- C7: in every run of the coordinator and for every task `t` built by `syncRun`
or `syncRunPreempt`, the lambda of `t` has run at most once; once the call that
built `t` has returned the lambda has run exactly once, every raise of the
notification of `t` comes after the return of the lambda, and the return of the
call comes after a raise of the notification. The call reaches its wait with the
task handed to `asyncRunInternal` exactly when `tryPreempt` returned false, and
with the task in the preemption slot, neither queued nor run, when it returned
true. -/
theorem blocking_contract (g : GlobalState) (actions : List Action) (m : Machine)
    (hrun : exec (Machine.init g) actions = some m) (t : Task) (hsync : t.isSlowPath = false) :
    m.trace.count (Event.lambda t) ≤ 1 ∧
    (Event.returned t ∈ m.trace →
      m.trace.count (Event.lambda t) = 1 ∧
      (∀ pre post, m.trace = pre ++ Event.notify t.notification :: post →
        Event.lambda t ∈ pre) ∧
      (∀ pre post, m.trace = pre ++ Event.returned t :: post →
        Event.notify t.notification ∈ pre)) ∧
    (∀ (lambda : Nat) (status : TypecheckingStatus) (m1 : Machine),
      syncRunPreempt m lambda status = some m1 →
      ((tryPreempt m status (PreemptTask.mk lambda m.nextNotification m.hasDedicatedThread)).1
          = Outcome.returned false ∧
        m1 = { asyncRunInternal { m with nextNotification := m.nextNotification + 1 }
                 (Task.syncRunPreempt
                   (PreemptTask.mk lambda m.nextNotification m.hasDedicatedThread)) with
               caller := Caller.waiting (Task.syncRunPreempt
                   (PreemptTask.mk lambda m.nextNotification m.hasDedicatedThread)) }) ∨
      ((tryPreempt m status (PreemptTask.mk lambda m.nextNotification m.hasDedicatedThread)).1
          = Outcome.returned true ∧
        m1.preemption.preemptTask
          = some (PreemptTask.mk lambda m.nextNotification m.hasDedicatedThread) ∧
        m1.tasks = m.tasks ∧ m1.trace = m.trace)) := by
  have hinv : Inv m := inv_exec actions hrun
  have hmark := mark_of_not_slowPath hsync
  have honce := hinv.mark_once t
  rw [hmark] at honce
  refine ⟨honce, ?_, ?_⟩
  · intro hret
    obtain ⟨h1, h2, h3, h4⟩ := hinv.history t hret
    rw [hmark] at h1 h3
    refine ⟨?_, ?_, ?_⟩
    · have := List.count_pos_iff.mpr h1
      omega
    · exact precedes_split (by simp) h3
    · exact precedes_split (by simp) h4
  · intro lambda status m1 hs
    unfold syncRunPreempt at hs
    simp only [tryPreempt] at hs ⊢
    rcases hm : m.preemption with ⟨slot⟩
    rw [hm] at hs
    cases slot with
    | some p0 => simp [trySchedule_occupied] at hs
    | none =>
      rw [trySchedule_empty] at hs ⊢
      by_cases hst : status.slowPathRunning = true ∧ status.slowPathWasCanceled = false
      · rw [if_pos hst] at hs ⊢
        simp only [Option.some.injEq] at hs
        subst hs
        right
        simp
      · rw [if_neg hst] at hs ⊢
        simp only [Option.some.injEq] at hs
        subst hs
        left
        simp [← hm]

/-- C7, witness: a run in which a task put in the preemption slot is run at a
checkpoint of the slow path and its call returns. -/
theorem blocking_contract_witness :
    exec (Machine.init 7) preemptScenario = some preemptScenarioEnd ∧
    (Task.syncRunPreempt (PreemptTask.mk 5 1 true)).isSlowPath = false ∧
    Event.returned (Task.syncRunPreempt (PreemptTask.mk 5 1 true)) ∈ preemptScenarioEnd.trace ∧
    preemptScenarioEnd.trace.count (Event.lambda (Task.syncRunPreempt (PreemptTask.mk 5 1 true)))
      = 1 :=
  ⟨by decide, by decide, by decide,
   ((blocking_contract 7 preemptScenario preemptScenarioEnd (by decide)
      (Task.syncRunPreempt (PreemptTask.mk 5 1 true)) (by decide)).2.1 (by decide)).1⟩

theorem precedes_trans {a b c : Event} {tr : List Event}
    (h1 : precedes a b tr = true) (h2 : precedes b c tr = true) : precedes a c tr = true := by
  induction tr with
  | nil => rfl
  | cons e tr ih =>
    simp only [precedes] at h1 h2 ⊢
    by_cases ha : e = a
    · simp [ha]
    · rw [if_neg ha] at h1 ⊢
      by_cases hb : e = b
      · simp [hb] at h1
      · rw [if_neg hb] at h1 h2
        by_cases hc : e = c
        · simp [hc] at h2
        · rw [if_neg hc] at h2 ⊢
          exact ih h1 h2

theorem slowPathScenario_exec (g : GlobalState) (updates : LSPFileUpdates) :
    exec (Machine.init g) (slowPathScenario updates) = some (slowPathScenarioEnd g updates) := by
  simp [slowPathScenario, slowPathScenarioEnd, exec, step, Machine.init, startTypecheckerThread,
    threadLoop, typecheckAsync, asyncRunInternal, Task.run, Task.isSlowPath, Machine.emit,
    waitAndReturn, Task.notification, TaskQueue.push, TaskQueue.wait_pop_timed]

/-- C8, counterexample: without a dedicated thread the caller of `typecheckAsync`
has raised the epoch-started notification and still cannot return: it is inside
`typechecker.typecheck`, and returns only once that call has returned. -/
theorem typecheckAsync_inline_not_returned :
    exec (Machine.init 0) [Action.typecheckAsync (LSPFileUpdates.mk 1 1)] = some inlineSlowPath ∧
    Event.notify 0 ∈ inlineSlowPath.trace ∧
    step inlineSlowPath Action.callerReturn = none ∧
    (exec inlineSlowPath [Action.typecheckReturn true, Action.callerReturn]).map Machine.trace
      = some
        [Event.run Site.inline (Task.typecheckAsync (LSPFileUpdates.mk 1 1) 0),
         Event.startCommitEpoch (Task.typecheckAsync (LSPFileUpdates.mk 1 1) 0) 1,
         Event.notify 0,
         Event.typecheckBegin (Task.typecheckAsync (LSPFileUpdates.mk 1 1) 0),
         Event.typecheckEnd (Task.typecheckAsync (LSPFileUpdates.mk 1 1) 0) true,
         Event.returned (Task.typecheckAsync (LSPFileUpdates.mk 1 1) 0)] := by
  decide

/-- C8, amended: the closure built by `typecheckAsync` starts the commit epoch of
the batch, then raises the notification, then enters the analysis; in every run
a return of `typecheckAsync` comes after a raise of its notification, which
comes after the start of the commit epoch. With a dedicated thread the call
only queues the closure and can return as soon as the notification is raised,
and there is a run in which it has returned while the analysis has not ended.
Without a dedicated thread the closure runs on the caller, and the call returns
only after the analysis has ended. -/
theorem typecheckAsync_epoch_started (g : GlobalState) (actions : List Action) (m : Machine)
    (hrun : exec (Machine.init g) actions = some m) (updates : LSPFileUpdates) (n : Nat) :
    (∀ (site : Site) (m0 : Machine),
      ((Task.typecheckAsync updates n).run site m0).trace
        = m0.trace ++ [Event.run site (Task.typecheckAsync updates n),
            Event.startCommitEpoch (Task.typecheckAsync updates n) updates.epoch,
            Event.notify n, Event.typecheckBegin (Task.typecheckAsync updates n)]) ∧
    (Event.returned (Task.typecheckAsync updates n) ∈ m.trace →
      (∀ pre post, m.trace = pre ++ Event.returned (Task.typecheckAsync updates n) :: post →
        Event.notify n ∈ pre ∧
        Event.startCommitEpoch (Task.typecheckAsync updates n) updates.epoch ∈ pre) ∧
      (∀ pre post, m.trace = pre ++ Event.notify n :: post →
        Event.startCommitEpoch (Task.typecheckAsync updates n) updates.epoch ∈ pre)) ∧
    (m.hasDedicatedThread = true →
      (typecheckAsync m updates).caller
          = Caller.waiting (Task.typecheckAsync updates m.nextNotification) ∧
        (typecheckAsync m updates).tasks
          = m.tasks ++ [Task.typecheckAsync updates m.nextNotification] ∧
        (typecheckAsync m updates).trace
          = m.trace ++ [Event.push (Task.typecheckAsync updates m.nextNotification)]) ∧
    (m.caller = Caller.waiting (Task.typecheckAsync updates n) → Event.notify n ∈ m.trace →
      ∃ m1, step m Action.callerReturn = some m1 ∧ m1.caller = Caller.idle ∧
        m1.trace = m.trace ++ [Event.returned (Task.typecheckAsync updates n)]) ∧
    (exec (Machine.init g) (slowPathScenario updates) = some (slowPathScenarioEnd g updates) ∧
      Event.returned (Task.typecheckAsync updates 0) ∈ (slowPathScenarioEnd g updates).trace ∧
      ∀ r, Event.typecheckEnd (Task.typecheckAsync updates 0) r
        ∉ (slowPathScenarioEnd g updates).trace) ∧
    (m.hasDedicatedThread = false →
      (typecheckAsync m updates).caller
          = Caller.inTypecheck (Task.typecheckAsync updates m.nextNotification) ∧
        (typecheckAsync m updates).trace
          = m.trace ++ [Event.run Site.inline (Task.typecheckAsync updates m.nextNotification),
              Event.startCommitEpoch (Task.typecheckAsync updates m.nextNotification)
                updates.epoch,
              Event.notify m.nextNotification,
              Event.typecheckBegin (Task.typecheckAsync updates m.nextNotification)]) ∧
    (Event.returned (Task.typecheckAsync updates n) ∈ m.trace →
      Event.run Site.inline (Task.typecheckAsync updates n) ∈ m.trace →
      ∃ r, ∀ pre post, m.trace = pre ++ Event.returned (Task.typecheckAsync updates n) :: post →
        Event.typecheckEnd (Task.typecheckAsync updates n) r ∈ pre) := by
  have hinv : Inv m := inv_exec actions hrun
  refine ⟨?_, ?_, ?_, ?_, ?_, ?_, ?_⟩
  · intro site m0
    simp [Task.run, Machine.emit]
  · intro hret
    obtain ⟨h1, h2, h3, h4⟩ := hinv.history _ hret
    simp only [Task.mark, Task.notification] at h1 h2 h3 h4
    refine ⟨fun pre post hsplit => ⟨?_, ?_⟩, ?_⟩
    · exact precedes_split (by simp) h4 pre post hsplit
    · exact precedes_split (by simp) (precedes_trans h3 h4) pre post hsplit
    · exact precedes_split (by simp) h3
  · intro hdt
    simp [typecheckAsync, asyncRunInternal, hdt, TaskQueue.push]
  · intro hw hn
    simp [step, hw, waitAndReturn, Task.notification, hn, Task.isSlowPath]
  · refine ⟨slowPathScenario_exec g updates, ?_, ?_⟩
    · simp [slowPathScenarioEnd]
    · simp [slowPathScenarioEnd]
  · intro hdt
    simp [typecheckAsync, asyncRunInternal, hdt, Task.run, Machine.emit]
  · intro hret hinl
    obtain ⟨r, h1, h2⟩ := hinv.inline_history (Task.typecheckAsync updates n) rfl hret hinl
    exact ⟨r, precedes_split (by simp) h2⟩

/-- C8, witness: the run of `slowPathScenario`, in which `typecheckAsync` has
returned after the start of the commit epoch. -/
theorem typecheckAsync_epoch_started_witness :
    exec (Machine.init 7) (slowPathScenario (LSPFileUpdates.mk 1 3))
      = some (slowPathScenarioEnd 7 (LSPFileUpdates.mk 1 3)) ∧
    Event.returned (Task.typecheckAsync (LSPFileUpdates.mk 1 3) 0)
      ∈ (slowPathScenarioEnd 7 (LSPFileUpdates.mk 1 3)).trace ∧
    Event.startCommitEpoch (Task.typecheckAsync (LSPFileUpdates.mk 1 3) 0) 1
      ∈ [Event.spawn, Event.changeThread,
         Event.push (Task.typecheckAsync (LSPFileUpdates.mk 1 3) 0),
         Event.run Site.loop (Task.typecheckAsync (LSPFileUpdates.mk 1 3) 0),
         Event.startCommitEpoch (Task.typecheckAsync (LSPFileUpdates.mk 1 3) 0) 1] :=
  ⟨by decide, by decide,
   (((typecheckAsync_epoch_started 7 (slowPathScenario (LSPFileUpdates.mk 1 3))
      (slowPathScenarioEnd 7 (LSPFileUpdates.mk 1 3)) (by decide)
      (LSPFileUpdates.mk 1 3) 0).2.1 (by decide)).2
      [Event.spawn, Event.changeThread,
         Event.push (Task.typecheckAsync (LSPFileUpdates.mk 1 3) 0),
         Event.run Site.loop (Task.typecheckAsync (LSPFileUpdates.mk 1 3) 0),
         Event.startCommitEpoch (Task.typecheckAsync (LSPFileUpdates.mk 1 3) 0) 1]
      [Event.typecheckBegin (Task.typecheckAsync (LSPFileUpdates.mk 1 3) 0),
       Event.returned (Task.typecheckAsync (LSPFileUpdates.mk 1 3) 0)]
      (by decide))⟩

/-! ### Order of the queue -/

theorem fifo_asyncRunInternal {m : Machine} (h : Fifo m) (t : Task) :
    Fifo (asyncRunInternal m t) := by
  unfold Fifo at h ⊢
  unfold asyncRunInternal
  split
  · simp [pushes_append, loopRuns_append, pushes, loopRuns, h, TaskQueue.push]
  · simp [Task.run_trace, (Task.run_fields Site.inline t m).1, pushes_append, loopRuns_append,
      runEvents_pushes, runEvents_loopRuns, h]

theorem fifo_caller {m : Machine} (c : Caller) (h : Fifo m) : Fifo { m with caller := c } := h

theorem fifo_step {m m1 : Machine} (a : Action) (h : Fifo m) (hs : step m a = some m1) :
    Fifo m1 := by
  cases a with
  | callerReturn =>
    simp only [step] at hs
    split at hs
    · rename_i t hw
      unfold waitAndReturn at hs
      split at hs
      · simp only [Option.some.injEq] at hs
        subst hs
        unfold Fifo at h ⊢
        rcases t with ⟨u, n⟩ | ⟨p⟩ | ⟨l, n, hdt⟩ <;> try cases l
        all_goals cases hd : m.hasDedicatedThread
        all_goals simp [Task.isSlowPath, Machine.emit, pushes_append, loopRuns_append, pushes,
          loopRuns, h]
      · simp at hs
    · simp at hs
  | threadLoop =>
    simp only [step] at hs
    rw [threadLoop_def] at hs
    split at hs
    · simp only [Option.some.injEq] at hs
      subst hs
      unfold Fifo at h ⊢
      simp [pushes_append, loopRuns_append, pushes, loopRuns, h]
    · split at hs
      · simp only [Option.some.injEq] at hs
        subst hs
        exact h
      · split at hs
        · simp only [Option.some.injEq] at hs
          subst hs
          exact h
        · rename_i task rest htasks
          simp only [Option.some.injEq] at hs
          subst hs
          unfold Fifo at h ⊢
          simp [Task.run_trace, (Task.run_fields Site.loop task _).1, pushes_append,
            loopRuns_append, runEvents_pushes, runEvents_loopRuns, h, htasks]
    · simp at hs
  | checkpoint cb =>
    simp only [step] at hs
    unfold checkpoint at hs
    split at hs
    · rcases hm : m.preemption with ⟨slot⟩
      rw [hm] at hs
      cases slot with
      | none =>
        simp only [tryRunBegin_empty, Option.some.injEq] at hs
        subst hs
        exact h
      | some p =>
        rw [tryRunBegin_occupied] at hs
        cases cb <;> simp at hs
        subst hs
        unfold Fifo at h ⊢
        simp [PreemptTask.run, Task.run_trace, Task.run_tasks, pushes_append,
          loopRuns_append, runEvents_pushes, runEvents_loopRuns, h]
    · simp at hs
  | checkpointEnd ca =>
    simp only [step] at hs
    unfold checkpointEnd at hs
    split at hs
    · rw [tryRunEnd_eq] at hs
      cases ca <;> simp at hs
      subst hs
      exact h
    · simp at hs
  | typecheckReturn result =>
    simp only [step] at hs
    unfold typecheckReturn at hs
    split at hs
    · simp at hs
    split at hs
    · rename_i t hth
      simp only [Option.some.injEq] at hs
      subst hs
      obtain ⟨_, _, _, _, _, e6, e7, e8, _⟩ := finishEvents_facts t result
      unfold Fifo at h ⊢
      simp [Task.finish_trace, (Task.finish_fields t result _).1, pushes_append,
        loopRuns_append, e6, e8, h]
    · split at hs
      · rename_i t hc
        simp only [Option.some.injEq] at hs
        subst hs
        obtain ⟨_, _, _, _, _, e6, e7, e8, _⟩ := finishEvents_facts t result
        unfold Fifo at h ⊢
        simp [Task.finish_trace, (Task.finish_fields t result _).1, pushes_append,
          loopRuns_append, e6, e8, h]
      · simp at hs
  | startTypecheckerThread =>
    simp only [step] at hs
    split at hs
    · simp only [Option.some.injEq] at hs
      subst hs
      unfold startTypecheckerThread
      split
      · exact h
      · unfold Fifo at h ⊢
        simp [pushes_append, loopRuns_append, pushes, loopRuns, h]
    · simp at hs
  | typecheckAsync updates =>
    simp only [step] at hs
    split at hs
    · simp only [Option.some.injEq] at hs
      subst hs
      exact fifo_caller _ (fifo_asyncRunInternal
        (show Fifo { m with nextNotification := m.nextNotification + 1 } from h) _)
    · simp at hs
  | syncRunPreempt lambda status =>
    simp only [step] at hs
    split at hs
    · simp only [syncRunPreempt, tryPreempt] at hs
      split at hs
      · simp at hs
      · simp only [Option.some.injEq] at hs
        subst hs
        exact h
      · rename_i pm _
        simp only [Option.some.injEq] at hs
        subst hs
        exact fifo_caller _ (fifo_asyncRunInternal
          (show Fifo { m with nextNotification := m.nextNotification + 1, preemption := pm }
            from h) _)
    · simp at hs
  | syncRun lambda =>
    simp only [step] at hs
    split at hs
    · simp only [Option.some.injEq] at hs
      subst hs
      exact fifo_caller _ (fifo_asyncRunInternal
        (show Fifo { m with nextNotification := m.nextNotification + 1 } from h) _)
    · simp at hs
  | shutdown =>
    simp only [step] at hs
    split at hs
    · simp only [Option.some.injEq] at hs
      subst hs
      exact fifo_caller _ (fifo_asyncRunInternal
        (show Fifo { m with gs := none, nextNotification := m.nextNotification + 1 } from h) _)
    · simp at hs

theorem fifo_exec (actions : List Action) :
    ∀ {m m1 : Machine}, Fifo m → exec m actions = some m1 → Fifo m1 := by
  induction actions with
  | nil =>
    intro m m1 h hs
    simp only [exec, Option.some.injEq] at hs
    exact hs ▸ h
  | cons a rest ih =>
    intro m m1 h hs
    simp only [exec] at hs
    cases hm : step m a with
    | none => simp [hm] at hs
    | some m2 =>
      rw [hm] at hs
      exact ih (fifo_step a h hm) hs

/-- C6: with a dedicated thread `asyncRunInternal` appends the task to the tail
of the queue and runs nothing; a turn of the loop of the dedicated thread on a
queue that is not empty takes the head of the queue and runs it once; hence in
every run the tasks pushed are, in order, the tasks run by the loop followed by
the tasks still queued, and when `a` was pushed before `b` and `b` has been run
by the loop, `a` has been run by the loop before `b`. -/
theorem fifo_queue_ordering (m0 : Machine) (actions : List Action) (m : Machine)
    (h0 : pushes m0.trace = loopRuns m0.trace ++ m0.tasks)
    (hrun : exec m0 actions = some m) :
    (∀ (mq : Machine) (task : Task), mq.hasDedicatedThread = true →
      asyncRunInternal mq task
          = { mq with tasks := mq.tasks ++ [task], trace := mq.trace ++ [Event.push task] } ∧
        runs (asyncRunInternal mq task).trace = runs mq.trace) ∧
    (∀ (mq : Machine) (task : Task) (rest : List Task), mq.thread = Thread.polling →
      mq.shouldTerminate = false → mq.tasks = task :: rest →
      ∃ m1, threadLoop mq = some m1 ∧ m1.tasks = rest ∧
        runs m1.trace = runs mq.trace ++ [task] ∧
        loopRuns m1.trace = loopRuns mq.trace ++ [task]) ∧
    pushes m.trace = loopRuns m.trace ++ m.tasks ∧
    (∀ (pre : List Task) (a : Task) (mid : List Task) (b : Task) (post : List Task),
      pushes m.trace = pre ++ a :: (mid ++ b :: post) →
      pre.length + mid.length + 1 < (loopRuns m.trace).length →
      ∃ post1, loopRuns m.trace = pre ++ a :: (mid ++ b :: post1)) := by
  have hf : Fifo m := fifo_exec actions h0 hrun
  unfold Fifo at hf
  refine ⟨?_, ?_, hf, ?_⟩
  · intro mq task hdt
    simp [asyncRunInternal, hdt, runs_append, runs, TaskQueue.push]
  · intro mq task rest hth hst htasks
    refine ⟨{ task.run Site.loop { mq with tasks := rest } with
              thread := if task.isSlowPath then Thread.slowPath task else Thread.polling },
      ?_, ?_, ?_, ?_⟩
    · simp [threadLoop, hth, hst, htasks, TaskQueue.wait_pop_timed]
    · simp [(Task.run_fields Site.loop task _).1]
    · simp [Task.run_trace, runs_append, runEvents_runs]
    · simp [Task.run_trace, loopRuns_append, runEvents_loopRuns]
  · intro pre a mid b post hsplit hlen
    have htake : loopRuns m.trace = (pushes m.trace).take (loopRuns m.trace).length := by
      rw [hf, List.take_left]
    refine ⟨post.take ((loopRuns m.trace).length - (pre.length + mid.length + 2)), ?_⟩
    rw [htake, hsplit]
    generalize (loopRuns m.trace).length = k at hlen ⊢
    have h1 : pre ++ a :: (mid ++ b :: post) = (pre ++ a :: (mid ++ [b])) ++ post := by simp
    have h2 : k = (pre ++ a :: (mid ++ [b])).length + (k - (pre.length + mid.length + 2)) := by
      simp
      omega
    rw [h1, h2, List.take_append]
    simp
    omega

/-- C6, witness: two tasks in the queue are run by two turns of the loop in the
order in which they were pushed. -/
theorem fifo_queue_ordering_witness :
    pushes twoQueued.trace = loopRuns twoQueued.trace ++ twoQueued.tasks ∧
    exec twoQueued [Action.threadLoop, Action.threadLoop] = some twoQueuedEnd ∧
    loopRuns twoQueuedEnd.trace
      = [Task.syncRun (Lambda.user 1) 0 true, Task.syncRun (Lambda.user 2) 1 true] ∧
    pushes twoQueuedEnd.trace = loopRuns twoQueuedEnd.trace ++ twoQueuedEnd.tasks :=
  ⟨by decide, by decide, by decide,
   (fifo_queue_ordering twoQueued [Action.threadLoop, Action.threadLoop] twoQueuedEnd
      (by decide) (by decide)).2.2.1⟩

/-- C9: `startTypecheckerThread` raises exactly when `hasDedicatedThread` is
already true, and then leaves the coordinator as it is and starts no thread;
otherwise it sets `hasDedicatedThread` and starts one thread. No action resets
`hasDedicatedThread`, and in every run from the constructor at most one thread
is started. -/
theorem startTypecheckerThread_once (g : GlobalState) (actions : List Action) (m : Machine)
    (hrun : exec (Machine.init g) actions = some m) :
    (∀ m0 : Machine,
      ((startTypecheckerThread m0).1 = Outcome.fatal ↔ m0.hasDedicatedThread = true) ∧
      (m0.hasDedicatedThread = true → startTypecheckerThread m0 = (Outcome.fatal, m0)) ∧
      (m0.hasDedicatedThread = false →
        (startTypecheckerThread m0).1 = Outcome.returned () ∧
        (startTypecheckerThread m0).2.hasDedicatedThread = true ∧
        (startTypecheckerThread m0).2.thread = Thread.starting ∧
        (startTypecheckerThread m0).2.trace = m0.trace ++ [Event.spawn])) ∧
    (∀ (a : Action) (m0 m1 : Machine), step m0 a = some m1 →
      m0.hasDedicatedThread = true → m1.hasDedicatedThread = true) ∧
    (∀ (a : Action) (m0 m1 : Machine), step m0 a = some m1 →
      m1.trace.count Event.spawn = m0.trace.count Event.spawn ∨
      (a = Action.startTypecheckerThread ∧ m0.hasDedicatedThread = false ∧
        m1.trace.count Event.spawn = m0.trace.count Event.spawn + 1)) ∧
    m.trace.count Event.spawn ≤ 1 ∧
    (m.trace.count Event.spawn = 1 ↔ m.hasDedicatedThread = true) := by
  refine ⟨?_, ?_, ?_, ?_, ?_⟩
  · intro m0
    cases h : m0.hasDedicatedThread <;> simp [startTypecheckerThread, Exception.raise, h]
  · intro a m0 m1 hs h
    rcases spawn_step a hs with ⟨e1, _⟩ | ⟨_, _, e2, _⟩
    · rw [e1]
      exact h
    · exact e2
  · intro a m0 m1 hs
    rcases spawn_step a hs with ⟨_, _, e3⟩ | ⟨e0, e1, _, _, e4⟩
    · exact Or.inl e3
    · exact Or.inr ⟨e0, e1, e4⟩
  · have := (spawn_exec actions hrun (by simp [Machine.init]) (by simp [Machine.init])).2.1
    rw [this]
    split <;> simp
  · have := (spawn_exec actions hrun (by simp [Machine.init]) (by simp [Machine.init])).2.1
    rw [this]
    cases m.hasDedicatedThread <;> simp

/-- C9, witness: a second call of `startTypecheckerThread` starts no thread. -/
theorem startTypecheckerThread_once_witness :
    exec (Machine.init 7)
        [Action.startTypecheckerThread, Action.startTypecheckerThread, Action.threadLoop]
      = some startedTwice ∧
    startedTwice.trace.count Event.spawn ≤ 1 :=
  ⟨by decide,
   (startTypecheckerThread_once 7
      [Action.startTypecheckerThread, Action.startTypecheckerThread, Action.threadLoop]
      startedTwice (by decide)).2.2.2.1⟩

/-! ### Shutdown -/

theorem stopped_asyncRunInternal {m : Machine} (h : Stopped m) (t : Task) (c : Caller)
    (hc : ∀ t1, c ≠ Caller.inTypecheck t1) :
    Stopped { asyncRunInternal m t with caller := c } ∧
    runs (asyncRunInternal m t).trace = runs m.trace ∧
    (asyncRunInternal m t).tasks = m.tasks ++ [t] := by
  obtain ⟨h1, h2, h3, h4, h5⟩ := h
  simp [asyncRunInternal, h2, Stopped, h1, h3, h5, hc, runs_append, runs, TaskQueue.push]

theorem stopped_step {m m1 : Machine} (a : Action) (h : Stopped m) (hs : step m a = some m1) :
    Stopped m1 ∧ runs m1.trace = runs m.trace ∧ ∃ more, m1.tasks = m.tasks ++ more := by
  obtain ⟨h1, h2, h3, h4, h5⟩ := h
  have hfl : m.inFlight = false := by
    cases hf : m.inFlight
    · rfl
    · rcases inFlight_cases hf with ⟨t, ht⟩ | ⟨t, ht⟩
      · simp [ht] at h3
      · exact absurd ht (h4 t)
  cases a with
  | callerReturn =>
    simp only [step] at hs
    split at hs
    · rename_i t hw
      unfold waitAndReturn at hs
      split at hs
      · simp only [Option.some.injEq] at hs
        subst hs
        refine ⟨?_, ?_, [], ?_⟩
        · rcases t with ⟨u, n⟩ | ⟨p⟩ | ⟨l, n, hdt⟩ <;> try cases l
          all_goals simp [Stopped, Task.isSlowPath, Machine.emit, h1, h2, h3, h5]
        · rcases t with ⟨u, n⟩ | ⟨p⟩ | ⟨l, n, hdt⟩ <;> try cases l
          all_goals simp [Task.isSlowPath, Machine.emit, h2, runs_append, runs]
        · rcases t with ⟨u, n⟩ | ⟨p⟩ | ⟨l, n, hdt⟩ <;> try cases l
          all_goals simp [Task.isSlowPath, Machine.emit, h2]
      · simp at hs
    · simp at hs
  | threadLoop =>
    simp only [step] at hs
    rw [threadLoop_def] at hs
    split at hs
    · rename_i hth
      simp [hth] at h3
    · simp only [h1, if_true, Option.some.injEq] at hs
      subst hs
      exact ⟨⟨rfl, h2, Or.inr rfl, h4, h5⟩, rfl, [], by simp⟩
    · simp at hs
  | checkpoint cb =>
    simp only [step] at hs
    unfold checkpoint at hs
    simp [hfl] at hs
  | checkpointEnd ca =>
    simp only [step] at hs
    unfold checkpointEnd at hs
    simp [h5] at hs
  | typecheckReturn result =>
    simp only [step] at hs
    unfold typecheckReturn at hs
    split at hs
    · simp at hs
    split at hs
    · rename_i t hth
      simp [hth] at h3
    · split at hs
      · rename_i t hc
        exact absurd hc (h4 t)
      · simp at hs
  | startTypecheckerThread =>
    simp only [step] at hs
    split at hs
    · simp only [startTypecheckerThread, h2, if_true, Option.some.injEq] at hs
      subst hs
      exact ⟨⟨h1, h2, h3, h4, h5⟩, rfl, [], by simp⟩
    · simp at hs
  | typecheckAsync updates =>
    simp only [step] at hs
    split at hs
    · simp only [Option.some.injEq] at hs
      subst hs
      have hst : Stopped { m with nextNotification := m.nextNotification + 1 } :=
        ⟨h1, h2, h3, h4, h5⟩
      obtain ⟨e1, e2, e3⟩ := stopped_asyncRunInternal hst
        (Task.typecheckAsync updates m.nextNotification)
        (Caller.waiting (Task.typecheckAsync updates m.nextNotification)) (by simp)
      refine ⟨?_, e2, _, e3⟩
      simpa [typecheckAsync, h2] using e1
    · simp at hs
  | syncRunPreempt lambda status =>
    simp only [step] at hs
    split at hs
    · simp only [syncRunPreempt, tryPreempt] at hs
      split at hs
      · simp at hs
      · simp only [Option.some.injEq] at hs
        subst hs
        exact ⟨⟨h1, h2, h3, by simp, h5⟩, rfl, [], by simp⟩
      · rename_i pm _
        simp only [Option.some.injEq] at hs
        subst hs
        have hst : Stopped { m with nextNotification := m.nextNotification + 1,
                                    preemption := pm } := ⟨h1, h2, h3, h4, h5⟩
        obtain ⟨e1, e2, e3⟩ := stopped_asyncRunInternal hst
          (Task.syncRunPreempt (PreemptTask.mk lambda m.nextNotification m.hasDedicatedThread))
          (Caller.waiting (Task.syncRunPreempt
            (PreemptTask.mk lambda m.nextNotification m.hasDedicatedThread))) (by simp)
        exact ⟨e1, e2, _, e3⟩
    · simp at hs
  | syncRun lambda =>
    simp only [step] at hs
    split at hs
    · simp only [Option.some.injEq] at hs
      subst hs
      have hst : Stopped { m with nextNotification := m.nextNotification + 1 } :=
        ⟨h1, h2, h3, h4, h5⟩
      obtain ⟨e1, e2, e3⟩ := stopped_asyncRunInternal hst
        (Task.syncRun (Lambda.user lambda) m.nextNotification m.hasDedicatedThread)
        (Caller.waiting (Task.syncRun (Lambda.user lambda) m.nextNotification
          m.hasDedicatedThread)) (by simp)
      exact ⟨e1, e2, _, e3⟩
    · simp at hs
  | shutdown =>
    simp only [step] at hs
    split at hs
    · simp only [Option.some.injEq] at hs
      subst hs
      have hst : Stopped { m with gs := none, nextNotification := m.nextNotification + 1 } :=
        ⟨h1, h2, h3, h4, h5⟩
      obtain ⟨e1, e2, e3⟩ := stopped_asyncRunInternal hst
        (Task.syncRun Lambda.shutdown m.nextNotification m.hasDedicatedThread)
        (Caller.waiting (Task.syncRun Lambda.shutdown m.nextNotification
          m.hasDedicatedThread)) (by simp)
      exact ⟨e1, e2, _, e3⟩
    · simp at hs

theorem stopped_exec (actions : List Action) :
    ∀ {m m1 : Machine}, Stopped m → exec m actions = some m1 →
      Stopped m1 ∧ runs m1.trace = runs m.trace ∧ ∃ more, m1.tasks = m.tasks ++ more := by
  induction actions with
  | nil =>
    intro m m1 h hs
    simp only [exec, Option.some.injEq] at hs
    subst hs
    exact ⟨h, rfl, [], by simp⟩
  | cons a rest ih =>
    intro m m1 h hs
    simp only [exec] at hs
    cases hm : step m a with
    | none => simp [hm] at hs
    | some m2 =>
      rw [hm] at hs
      obtain ⟨e1, e2, more1, e3⟩ := stopped_step a h hm
      obtain ⟨e4, e5, more2, e6⟩ := ih e1 hs
      exact ⟨e4, e5.trans e2, more1 ++ more2, by rw [e6, e3, List.append_assoc]⟩

theorem shutdown_body (site : Site) (k : Nat) (d : Bool) (mq : Machine) :
    ((Task.syncRun Lambda.shutdown k d).run site mq).shouldTerminate = true ∧
    ((Task.syncRun Lambda.shutdown k d).run site mq).typechecker.gs = none ∧
    ((Task.syncRun Lambda.shutdown k d).run site mq).gs = mq.typechecker.gs ∧
    ((Task.syncRun Lambda.shutdown k d).run site mq).trace.count Event.destroy
      = mq.trace.count Event.destroy + 1 ∧
    ((Task.syncRun Lambda.shutdown k d).run site mq).shutdownResults = mq.shutdownResults ∧
    Event.notify k ∈ ((Task.syncRun Lambda.shutdown k d).run site mq).trace := by
  cases d <;>
    simp [Task.run, Lambda.run, Machine.emit, LSPTypechecker.destroy, List.count_cons]

theorem shutdown_return (mq : Machine) (k : Nat) (d : Bool)
    (hc : mq.caller = Caller.waiting (Task.syncRun Lambda.shutdown k d))
    (hn : Event.notify k ∈ mq.trace) :
    ∃ m1, step mq Action.callerReturn = some m1 ∧
      m1.shutdownResults = mq.shutdownResults ++ [mq.gs] ∧
      m1.typechecker = mq.typechecker ∧ m1.shouldTerminate = mq.shouldTerminate := by
  cases hd : mq.hasDedicatedThread <;>
    simp [step, hc, waitAndReturn, Task.notification, hn, Task.isSlowPath, Machine.emit, hd]

/-- C10: `shutdown` is `syncRun` on the lambda that sets `shouldTerminate` and
takes the analysis state out of the typechecker, and never touches the
preemption slot; running its task sets `shouldTerminate`, empties the
typechecker with one call of `destroy` and stores the state in the variable
that `shutdown` returns. When the loop of the dedicated thread takes the task of
`shutdown` from the queue, the caller is returned the state the typechecker
held, the next turn of the loop leaves the loop, and whatever happens afterwards
no further task is run: the tasks behind it in the queue stay queued. Every run
from the constructor that reaches the head of the loop with the task of
`shutdown` at the head of the queue is in that situation. -/
theorem shutdown_terminates (m : Machine) (n : Nat) (hdt : Bool) (rest : List Task)
    (hth : m.thread = Thread.polling) (hst : m.shouldTerminate = false)
    (hhdt : m.hasDedicatedThread = true)
    (hcaller : m.caller = Caller.waiting (Task.syncRun Lambda.shutdown n hdt))
    (hlocal : m.preemptLocal = none)
    (htasks : m.tasks = Task.syncRun Lambda.shutdown n hdt :: rest) :
    (∀ mq : Machine,
      shutdown mq = syncRun { mq with gs := none } Lambda.shutdown ∧
      (shutdown mq).preemption = mq.preemption ∧
      (shutdown mq).caller
        = Caller.waiting
            (Task.syncRun Lambda.shutdown mq.nextNotification mq.hasDedicatedThread) ∧
      (mq.hasDedicatedThread = true →
        (shutdown mq).tasks
            = mq.tasks ++ [Task.syncRun Lambda.shutdown mq.nextNotification true] ∧
          runs (shutdown mq).trace = runs mq.trace) ∧
      (mq.hasDedicatedThread = false →
        (shutdown mq).tasks = mq.tasks ∧
          runs (shutdown mq).trace
            = runs mq.trace ++ [Task.syncRun Lambda.shutdown mq.nextNotification false])) ∧
    (∀ (site : Site) (k : Nat) (d : Bool) (mq : Machine),
      ((Task.syncRun Lambda.shutdown k d).run site mq).shouldTerminate = true ∧
      ((Task.syncRun Lambda.shutdown k d).run site mq).typechecker.gs = none ∧
      ((Task.syncRun Lambda.shutdown k d).run site mq).gs = mq.typechecker.gs ∧
      ((Task.syncRun Lambda.shutdown k d).run site mq).trace.count Event.destroy
        = mq.trace.count Event.destroy + 1) ∧
    (∀ (mq : Machine) (k : Nat) (d : Bool),
      mq.caller = Caller.waiting (Task.syncRun Lambda.shutdown k d) →
      Event.notify k ∈ mq.trace →
      ∃ m1, step mq Action.callerReturn = some m1 ∧
        m1.shutdownResults = mq.shutdownResults ++ [mq.gs]) ∧
    (∀ mq : Machine, mq.caller = Caller.idle → mq.hasDedicatedThread = false →
      ∃ m2, exec mq [Action.shutdown, Action.callerReturn] = some m2 ∧
        m2.shutdownResults = mq.shutdownResults ++ [mq.typechecker.gs] ∧
        m2.typechecker.gs = none ∧ m2.shouldTerminate = true) ∧
    (∀ (g : GlobalState) (actions : List Action) (mr : Machine) (k : Nat) (d : Bool)
      (rest1 : List Task), exec (Machine.init g) actions = some mr →
      mr.thread = Thread.polling → mr.tasks = Task.syncRun Lambda.shutdown k d :: rest1 →
      mr.hasDedicatedThread = true ∧
        mr.caller = Caller.waiting (Task.syncRun Lambda.shutdown k d) ∧
        mr.preemptLocal = none) ∧
    (∃ m1, threadLoop m = some m1 ∧
      m1.shouldTerminate = true ∧ m1.typechecker.gs = none ∧ m1.gs = m.typechecker.gs ∧
      m1.trace.count Event.destroy = m.trace.count Event.destroy + 1 ∧
      m1.tasks = rest ∧
      runs m1.trace = runs m.trace ++ [Task.syncRun Lambda.shutdown n hdt] ∧
      threadLoop m1 = some { m1 with thread := Thread.exited } ∧
      (∃ m3, step m1 Action.callerReturn = some m3 ∧
        m3.shutdownResults = m.shutdownResults ++ [m.typechecker.gs]) ∧
      (∀ (actions1 : List Action) (m2 : Machine), exec m1 actions1 = some m2 →
        m2.shouldTerminate = true ∧ runs m2.trace = runs m1.trace ∧
        ∃ more, m2.tasks = rest ++ more)) := by
  refine ⟨?_, ?_, ?_, ?_, ?_, ?_⟩
  · intro mq
    refine ⟨rfl, ?_, ?_, ?_, ?_⟩
    · cases hd : mq.hasDedicatedThread <;>
        simp [shutdown, syncRun, asyncRunInternal, hd, Task.run, Lambda.run, Machine.emit]
    · simp [shutdown, syncRun]
    · intro hd
      simp [shutdown, syncRun, asyncRunInternal, hd, runs_append, runs, TaskQueue.push]
    · intro hd
      simp [shutdown, syncRun, asyncRunInternal, hd, Task.run_tasks, Task.run_trace,
        runs_append, runEvents_runs]
  · intro site k d mq
    obtain ⟨b1, b2, b3, b4, _⟩ := shutdown_body site k d mq
    exact ⟨b1, b2, b3, b4⟩
  · intro mq k d hc hn
    obtain ⟨m1, e1, e2, _⟩ := shutdown_return mq k d hc hn
    exact ⟨m1, e1, e2⟩
  · intro mq hidle hd
    obtain ⟨b1, b2, b3, b4, b5, b6⟩ := shutdown_body Site.inline mq.nextNotification false
      { mq with gs := none, nextNotification := mq.nextNotification + 1 }
    have hsd : shutdown mq
        = { (Task.syncRun Lambda.shutdown mq.nextNotification false).run Site.inline
              { mq with gs := none, nextNotification := mq.nextNotification + 1 } with
            caller := Caller.waiting (Task.syncRun Lambda.shutdown mq.nextNotification false) } := by
      simp [shutdown, syncRun, asyncRunInternal, hd]
    obtain ⟨m2, e1, e2, e3, e4⟩ := shutdown_return (shutdown mq) mq.nextNotification false
      (by rw [hsd]) (by rw [hsd]; exact b6)
    have h1 : step mq Action.shutdown = some (shutdown mq) := by simp [step, hidle]
    refine ⟨m2, ?_, ?_, ?_, ?_⟩
    · simp only [exec, h1, Option.some_bind, e1]
    · rw [e2, hsd]
      simp [b3, b5]
    · rw [e3, hsd]
      exact b2
    · rw [e4, hsd]
      exact b1
  · intro g actions mr k d rest1 hrun hth1 htasks1
    have hwf : Wf mr := wf_exec actions (wf_init g) hrun
    have hc1 : mr.caller = Caller.waiting (Task.syncRun Lambda.shutdown k d) :=
      (hwf.inv.pending_caller _ (by simp [Machine.pending, htasks1])).1
    refine ⟨?_, hc1, ?_⟩
    · cases hd : mr.hasDedicatedThread
      · have := hwf.started.mpr hd
        simp [hth1] at this
      · rfl
    · cases hl : mr.preemptLocal with
      | none => rfl
      | some p =>
        have := (hwf.clearing p hl).2
        simp [Machine.inFlight, hth1, hc1] at this
  · have hsync := threadLoop_sync (Task.syncRun Lambda.shutdown n hdt) rest hth hst htasks rfl
    obtain ⟨b1, b2, b3, b4, b5, b6⟩ := shutdown_body Site.loop n hdt { m with tasks := rest }
    have c1 := Task.run_thread Site.loop (Task.syncRun Lambda.shutdown n hdt)
      { m with tasks := rest }
    have c2 := Task.run_tasks Site.loop (Task.syncRun Lambda.shutdown n hdt)
      { m with tasks := rest }
    have c3 := Task.run_caller Site.loop (Task.syncRun Lambda.shutdown n hdt)
      { m with tasks := rest }
    have c4 := Task.run_hasDedicatedThread Site.loop (Task.syncRun Lambda.shutdown n hdt)
      { m with tasks := rest }
    have c6 := Task.run_preemptLocal Site.loop (Task.syncRun Lambda.shutdown n hdt)
      { m with tasks := rest }
    have c5 : runs ((Task.syncRun Lambda.shutdown n hdt).run Site.loop
        { m with tasks := rest }).trace
        = runs m.trace ++ [Task.syncRun Lambda.shutdown n hdt] := by
      simp [Task.run_trace, runs_append, runEvents_runs]
    generalize (Task.syncRun Lambda.shutdown n hdt).run Site.loop { m with tasks := rest } = m1
      at hsync b1 b2 b3 b4 b5 b6 c1 c2 c3 c4 c5 c6
    simp only at b3 b4 b5 c1 c2 c3 c4 c6
    have hstop : Stopped m1 :=
      ⟨b1, c4.trans hhdt, Or.inl (c1.trans hth), fun t ht => by simp [c3, hcaller] at ht,
        c6.trans hlocal⟩
    refine ⟨m1, hsync, b1, b2, b3, b4, c2, c5, ?_, ?_, ?_⟩
    · rw [threadLoop_def]
      simp [c1, hth, b1]
    · obtain ⟨m3, e1, e2, _⟩ := shutdown_return m1 n hdt (c3.trans hcaller) b6
      exact ⟨m3, e1, by rw [e2, b3, b5]⟩
    · intro actions1 m2 hs
      obtain ⟨e1, e2, more, e3⟩ := stopped_exec actions1 hstop hs
      exact ⟨e1.1, e2, more, by rw [e3, c2]⟩

/-- C10, witness: the task of `shutdown` is at the head of the queue with one
more task behind it; the loop runs it, the caller is returned the state, the
loop ends, and the task behind it and a task submitted later stay queued. -/
theorem shutdown_terminates_witness :
    (exec (Machine.init 7) shutdownScenario).map (fun m => (m.thread, m.tasks, m.caller))
      = some (Thread.polling, [Task.syncRun Lambda.shutdown 0 true],
          Caller.waiting (Task.syncRun Lambda.shutdown 0 true)) ∧
    shutdownQueued.thread = Thread.polling ∧ shutdownQueued.shouldTerminate = false ∧
    shutdownQueued.tasks
      = [Task.syncRun Lambda.shutdown 0 true, Task.syncRun (Lambda.user 3) 1 true] ∧
    (exec shutdownQueued [Action.threadLoop, Action.callerReturn, Action.syncRun 4,
        Action.threadLoop]).map (fun m => (m.shutdownResults, m.thread, m.tasks))
      = some ([some 7], Thread.exited,
          [Task.syncRun (Lambda.user 3) 1 true, Task.syncRun (Lambda.user 4) 2 true]) ∧
    ∃ m1, threadLoop shutdownQueued = some m1 ∧ m1.shouldTerminate = true ∧
      m1.tasks = [Task.syncRun (Lambda.user 3) 1 true] :=
  ⟨by decide, by decide, by decide, by decide, by decide,
   (shutdown_terminates shutdownQueued 0 true [Task.syncRun (Lambda.user 3) 1 true]
      (by decide) (by decide) (by decide) (by decide) (by decide)
      (by decide)).2.2.2.2.2.imp (fun _ h => ⟨h.1, h.2.1, h.2.2.2.2.2.1⟩)⟩

end Sorbet
